import Mathlib

/-
Verification development for the ternary sequence store implemented in
src/seq.c.

The C trie is embedded as a pure inductive tree: a seq_t* pointer is a
SeqTree value, with the NULL pointer as the constructor SeqTree.null and
a node (struct seq) as SeqTree.mk with its three owned child pointers,
its optional owned display name (abstract_class_name) and its
abstraction-class id (abstract_class, with -1 the "none" sentinel).  The
store-wide class counter (the int pointed at by abstract_classes_amount,
shared by all nodes of one store) is threaded through the operations
explicitly.

malloc is modelled by an allocation oracle of type List Bool, consumed
one entry per allocation call; an exhausted (empty) oracle means every
remaining allocation succeeds.  Freeing memory has no observable effect
in the pure model beyond the pointer fields the C code nulls out.

Undefined behaviour - seq.c calls strcmp(n1, n2) inside node_change even
when n1 is NULL and n2 is not - is modelled by the value none of an
Option-typed result.
-/

/-- Display names: the C char* strings, as lists of characters. -/
abbrev AbsName := List Char

/-- The three symbols of the alphabet 0, 1, 2. -/
inductive TSym : Type where
  | s0
  | s1
  | s2
deriving DecidableEq, Repr

/-- A seq_t* value: either the NULL pointer or a trie node (struct seq)
with three owned child pointers, an optional owned display name, and an
abstraction class id (-1 meaning no class). -/
inductive SeqTree : Type where
  | null
  | mk (next_zero next_one next_two : SeqTree)
      (abstract_class_name : Option AbsName) (abstract_class : Int)
deriving DecidableEq, Repr

/-- Child pointer for symbol 0 (null on the NULL pointer). -/
def SeqTree.next_zero : SeqTree → SeqTree
  | .null => .null
  | .mk z _ _ _ _ => z

/-- Child pointer for symbol 1 (null on the NULL pointer). -/
def SeqTree.next_one : SeqTree → SeqTree
  | .null => .null
  | .mk _ o _ _ _ => o

/-- Child pointer for symbol 2 (null on the NULL pointer). -/
def SeqTree.next_two : SeqTree → SeqTree
  | .null => .null
  | .mk _ _ tw _ _ => tw

/-- The node's display name field (none on the NULL pointer). -/
def SeqTree.abstract_class_name : SeqTree → Option AbsName
  | .null => none
  | .mk _ _ _ nm _ => nm

/-- The node's abstraction class id field (-1 on the NULL pointer). -/
def SeqTree.abstract_class : SeqTree → Int
  | .null => -1
  | .mk _ _ _ _ c => c

/-- Whether the pointer is a real node. -/
def SeqTree.isNode : SeqTree → Bool
  | .null => false
  | .mk _ _ _ _ _ => true

/-- The class id of a node, none for the NULL pointer. -/
def SeqTree.clsOpt : SeqTree → Option Int
  | .null => none
  | .mk _ _ _ _ c => some c

/-- next_seq from seq.c: the child pointer of p for a symbol (on NULL it
returns NULL, as the C function does).  check_seq_for_next(p, c) is
(next_seq p c).isNode. -/
def next_seq (p : SeqTree) (c : TSym) : SeqTree :=
  match c with
  | .s0 => p.next_zero
  | .s1 => p.next_one
  | .s2 => p.next_two

/-- Store the given pointer into the child slot for symbol c
(p->next_zero = x etc.); no effect on the NULL pointer. -/
def SeqTree.setChild : SeqTree → TSym → SeqTree → SeqTree
  | .null, _, _ => .null
  | .mk _ o tw nm cl, .s0, x => .mk x o tw nm cl
  | .mk z _ tw nm cl, .s1, x => .mk z x tw nm cl
  | .mk z o _ nm cl, .s2, x => .mk z o x nm cl

/-- Overwrite the display-name field (p->abstract_class_name = x). -/
def SeqTree.setName : SeqTree → Option AbsName → SeqTree
  | .null, _ => .null
  | .mk z o tw _ cl, x => .mk z o tw x cl

/-- Overwrite the class-id field (p->abstract_class = v). -/
def SeqTree.setCls : SeqTree → Int → SeqTree
  | .null, _ => .null
  | .mk z o tw nm _, v => .mk z o tw nm v

/-- A freshly malloc'ed node as initialised by new_seq_node / seq_new:
no children, no name, class -1. -/
def freshNode : SeqTree := .mk .null .null .null none (-1)

/-- seq_new from seq.c: the root node together with the class counter,
which starts at 0. -/
def seq_new : SeqTree × Int := (freshNode, 0)

/-- charToSym: which symbol a character denotes, if any; the validator
accepts exactly the characters this maps to some symbol. -/
def charToSym (c : Char) : Option TSym :=
  if c = '0' then some TSym.s0
  else if c = '1' then some TSym.s1
  else if c = '2' then some TSym.s2
  else none

/-- check_str_for_inval from seq.c: -1 (EINVAL) for the empty string or
any character outside 0,1,2; 0 for a correct sequence.  (The NULL
argument case has no counterpart for list-valued strings.) -/
def check_str_for_inval (s : List Char) : Int :=
  if s = [] then -1
  else if s.all fun c => (charToSym c).isSome then 0
  else -1

/-- The symbols of a (validated) string; on strings accepted by
check_str_for_inval this is the exact character-by-character image. -/
def toSyms (s : List Char) : List TSym := s.filterMap charToSym

/-- Walking the trie along a list of symbols: the repeated
check_seq_for_next / next_seq loop of seq.c. -/
def walk : SeqTree → List TSym → SeqTree
  | t, [] => t
  | .null, _ :: _ => .null
  | t, c :: cs => walk (next_seq t c) cs

/-- One allocation: consume the head of the oracle (empty oracle =
success). -/
def allocStep : List Bool → Bool × List Bool
  | [] => (true, [])
  | b :: bs => (b, bs)

/-- seq_valid from seq.c: -1 on invalid input or NULL store, else 1 if
the walk for s reaches a node, 0 otherwise. -/
def seq_valid (t : SeqTree) (s : List Char) : Int :=
  if check_str_for_inval s = -1 then -1
  else if t = SeqTree.null then -1
  else if (walk t (toSyms s)).isNode then 1 else 0

/-- new_seq_node + the seq_add loop of seq.c, recursively: walk the
remaining symbols; where a child is missing, malloc a fresh node (one
oracle entry).  On allocation failure seq.c deletes the contiguous run
of nodes created during the call (seq_remove_recur from the first added
node) and nulls the parent pointer; recursively, each level that created
its child undoes exactly that creation (setChild _ c null), which
composes to the same detachment.  Result code: -1 allocation failure,
otherwise 1 if at least one node was created below, 0 if none. -/
def seq_add_aux : SeqTree → List TSym → List Bool → Int × SeqTree × List Bool
  | t, [], al => (0, t, al)
  | t, c :: cs, al =>
    match next_seq t c with
    | .null =>
      let a := allocStep al
      if a.1 then
        let r := seq_add_aux freshNode cs a.2
        if r.1 = -1 then (-1, t.setChild c SeqTree.null, r.2.2)
        else (1, t.setChild c r.2.1, r.2.2)
      else (-1, t, a.2)
    | ch =>
      let r := seq_add_aux ch cs al
      (r.1, t.setChild c r.2.1, r.2.2)

/-- seq_add from seq.c: validate (NULL store, then string), then add the
sequence and all of its missing initial segments. -/
def seq_add (t : SeqTree) (s : List Char) (al : List Bool) :
    Int × SeqTree × List Bool :=
  if t = SeqTree.null then (-1, t, al)
  else if check_str_for_inval s = -1 then (-1, t, al)
  else seq_add_aux t (toSyms s) al

/-- The walk of seq_remove from seq.c, ending with seq_remove_recur on
the final node and nulling the parent's child pointer (second_to_last);
none when some step of the path is missing (seq_remove returns 0). -/
def seq_remove_aux : SeqTree → TSym → List TSym → Option SeqTree
  | t, c, [] =>
    match next_seq t c with
    | .null => none
    | _ => some (t.setChild c SeqTree.null)
  | t, c, c2 :: cs =>
    match next_seq t c with
    | .null => none
    | ch => (seq_remove_aux ch c2 cs).map fun ch2 => t.setChild c ch2

/-- seq_remove from seq.c: -1 on NULL store or invalid input; 0 (no
mutation) when the path is missing; else detach the final node with its
whole subtree and return 1. -/
def seq_remove (t : SeqTree) (s : List Char) : Int × SeqTree :=
  if t = SeqTree.null then (-1, t)
  else if check_str_for_inval s = -1 then (-1, t)
  else
    match toSyms s with
    | [] => (-1, t)
    | c :: cs =>
      match seq_remove_aux t c cs with
      | some t2 => (1, t2)
      | none => (0, t)

/-- seq_get_name from seq.c.  Observable outcome: the returned char
pointer (none = NULL) together with the errno value the call stores, if
any (the call leaves errno untouched exactly when it returns a name;
22 stands for EINVAL).  Both the missing-path case and the
nameless-node case store errno = 0 and return NULL. -/
def seq_get_name (t : SeqTree) (s : List Char) : Option AbsName × Option Int :=
  if t = SeqTree.null then (none, some 22)
  else if check_str_for_inval s = -1 then (none, some 22)
  else
    match walk t (toSyms s) with
    | .null => (none, some 0)
    | e =>
      match e.abstract_class_name with
      | none => (none, some 0)
      | some nm => (some nm, none)

/-- replace_or_set_seq_name from seq.c, acting on the name field of the
(non-NULL) node it is called on: free the old name, set the field NULL,
then malloc a copy of n; -1 (field left NULL) on allocation failure. -/
def replace_or_set_seq_name (n : AbsName) (al : List Bool) :
    Int × Option AbsName × List Bool :=
  let a := allocStep al
  if a.1 then (1, some n, a.2) else (-1, none, a.2)

/-- recur_seq_name from seq.c: post-order scan renaming every node of
class current_abs_class.  Note the C return value: at a node of the
class it returns (replace_or_set_seq_name(p, n) == 1), which maps the
-1 allocation failure to 0, so -1 is in fact never produced and the
subsequent -1 checks never fire. -/
def recur_seq_name :
    SeqTree → AbsName → Int → List Bool → Int × SeqTree × List Bool
  | .null, _, _, al => (0, .null, al)
  | .mk z o tw nm cls, n, cac, al =>
    let rz := recur_seq_name z n cac al
    let ro := recur_seq_name o n cac rz.2.2
    let rt := recur_seq_name tw n cac ro.2.2
    if rz.1 = -1 ∨ ro.1 = -1 ∨ rt.1 = -1 then
      (-1, .mk rz.2.1 ro.2.1 rt.2.1 nm cls, rt.2.2)
    else if cls = cac then
      let rp := replace_or_set_seq_name n rt.2.2
      ((if rp.1 = 1 then 1 else 0),
        .mk rz.2.1 ro.2.1 rt.2.1 rp.2.1 cls, rp.2.2)
    else (1, .mk rz.2.1 ro.2.1 rt.2.1 nm cls, rt.2.2)

/-- Apply a field update to the node at the given path (the C code holds
a direct pointer to that node); identity when the path is missing. -/
def updateAt : SeqTree → List TSym → (SeqTree → SeqTree) → SeqTree
  | t, [], f => f t
  | t, c :: cs, f =>
    match next_seq t c with
    | .null => t
    | ch => t.setChild c (updateAt ch cs f)

/-- seq_set_name from seq.c.  State: tree, class counter; returns the C
result code, the new tree, the new counter and the remaining oracle.
First-naming path: malloc the name (on failure the field is assigned
the NULL result and the call returns -1 before touching the counter),
then current_abs_class = counter; counter += 1; class = counter.
Renaming path: no-op 0 when the current name exists and equals n, else
the full-tree recur_seq_name scan from the root. -/
def seq_set_name (t : SeqTree) (ctr : Int) (s : List Char) (n : AbsName)
    (al : List Bool) : Int × SeqTree × Int × List Bool :=
  if t = SeqTree.null then (-1, t, ctr, al)
  else if check_str_for_inval s = -1 then (-1, t, ctr, al)
  else if n = [] then (-1, t, ctr, al)
  else
    match walk t (toSyms s) with
    | .null => (0, t, ctr, al)
    | e =>
      if e.abstract_class = -1 then
        let a := allocStep al
        if a.1 then
          (1, updateAt t (toSyms s)
                (fun nd => (nd.setName (some n)).setCls (ctr + 1)),
            ctr + 1, a.2)
        else
          (-1, updateAt t (toSyms s) (fun nd => nd.setName none), ctr, a.2)
      else
        match e.abstract_class_name with
        | some cur =>
          if n = cur then (0, t, ctr, al)
          else
            let r := recur_seq_name t n e.abstract_class al
            (r.1, r.2.1, ctr, r.2.2)
        | none =>
          let r := recur_seq_name t n e.abstract_class al
          (r.1, r.2.1, ctr, r.2.2)

/-- singular_name from seq.c: malloc a copy of the (non-NULL) string n;
none on allocation failure. -/
def singular_name (n : AbsName) (al : List Bool) : Option AbsName × List Bool :=
  let a := allocStep al
  if a.1 then (some n, a.2) else (none, a.2)

/-- merge_names from seq.c: malloc one buffer and build the
concatenation of whichever of n1, n2 are present; none on allocation
failure. -/
def merge_names (n1 n2 : Option AbsName) (al : List Bool) :
    Option AbsName × List Bool :=
  let a := allocStep al
  if a.1 then (some (n1.getD [] ++ n2.getD []), a.2) else (none, a.2)

/-- node_change from seq.c, acting on the (non-NULL) node's name field
nm: free the old name, set the class id, then compute the new name from
the two snapshots n1, n2.  Outer none models the undefined behaviour of
the source: with n1 == NULL and n2 != NULL the condition
(n1 && !n2) || !strcmp(n1, n2) calls strcmp on a NULL pointer.  Inner
result: C result code, new name field, new class field, oracle. -/
def node_change (nm : Option AbsName) (n1 n2 : Option AbsName) (cl : Int)
    (al : List Bool) : Option (Int × Option AbsName × Int × List Bool) :=
  match nm, n1, n2 with
  | _, none, none => some (1, none, cl, al)
  | _, some a, none =>
    let r := singular_name a al
    match r.1 with
    | some nn => some (1, some nn, cl, r.2)
    | none => some (-1, none, cl, r.2)
  | _, none, some _ => none
  | _, some a, some b =>
    if a = b then
      let r := singular_name a al
      match r.1 with
      | some nn => some (1, some nn, cl, r.2)
      | none => some (-1, none, cl, r.2)
    else
      let r := merge_names (some a) (some b) al
      match r.1 with
      | some nn => some (1, some nn, cl, r.2)
      | none => some (-1, none, cl, r.2)

/-- node_change applied through a pointer to the node at a path of the
tree (the missing-path case mirrors node_change(NULL) returning 0). -/
def node_change_at (t : SeqTree) (p : List TSym) (n1 n2 : Option AbsName)
    (cl : Int) (al : List Bool) : Option (Int × SeqTree × List Bool) :=
  match walk t p with
  | .null => some (0, t, al)
  | nd =>
    (node_change nd.abstract_class_name n1 n2 cl al).map fun r =>
      (r.1, updateAt t p (fun x => (x.setName r.2.1).setCls r.2.2.1), r.2.2.2)

/-- recur_equiv from seq.c: post-order scan; every node whose class id
is abs_class_1 or abs_class_2 (and not -1) gets node_change to the new
class abs_class_n with the two name snapshots.  All three subtrees are
scanned before the -1 check, exactly as in the source. -/
def recur_equiv :
    SeqTree → Int → Int → Int → Option AbsName → Option AbsName →
      List Bool → Option (Int × SeqTree × List Bool)
  | .null, _, _, _, _, _, al => some (0, .null, al)
  | .mk z o tw nm cls, a1, a2, an, m1, m2, al => do
    let rz ← recur_equiv z a1 a2 an m1 m2 al
    let ro ← recur_equiv o a1 a2 an m1 m2 rz.2.2
    let rt ← recur_equiv tw a1 a2 an m1 m2 ro.2.2
    if rz.1 = -1 ∨ ro.1 = -1 ∨ rt.1 = -1 then
      some (-1, .mk rz.2.1 ro.2.1 rt.2.1 nm cls, rt.2.2)
    else if cls ≠ -1 ∧ (cls = a1 ∨ cls = a2) then
      (node_change nm m1 m2 an rt.2.2).map fun rn =>
        (rn.1, .mk rz.2.1 ro.2.1 rt.2.1 rn.2.1 rn.2.2.1, rn.2.2.2)
    else some (0, .mk rz.2.1 ro.2.1 rt.2.1 nm cls, rt.2.2)

/-- seq_equiv from seq.c.  ptrEq models the C pointer comparison
s1 == s2: it is true exactly when the caller passes the same string
object twice (so ptrEq = true entails s1 = s2; two distinct buffers
with equal contents give ptrEq = false).  Outer none = undefined
behaviour inside some node_change.  Steps, in source order: NULL and
string validation; pointer check; walk both endpoints (0 when absent);
0 when both endpoints share a class id other than -1; set both endpoint
class ids to counter + 1 and advance the counter; defensively copy both
endpoint names (one malloc per present name, -1 on failure);
node_change on each endpoint; recur_equiv over the root's three
subtrees; 1 unless some scan returned -1. -/
def seq_equiv (t : SeqTree) (ctr : Int) (s1 s2 : List Char) (ptrEq : Bool)
    (al : List Bool) : Option (Int × SeqTree × Int × List Bool) :=
  if t = SeqTree.null then some (-1, t, ctr, al)
  else if check_str_for_inval s1 = -1 then some (-1, t, ctr, al)
  else if check_str_for_inval s2 = -1 then some (-1, t, ctr, al)
  else if ptrEq then some (0, t, ctr, al)
  else
    match walk t (toSyms s1) with
    | .null => some (0, t, ctr, al)
    | e1 =>
      match walk t (toSyms s2) with
      | .null => some (0, t, ctr, al)
      | e2 =>
        if e1.abstract_class ≠ -1 ∧ e1.abstract_class = e2.abstract_class then
          some (0, t, ctr, al)
        else
          let an := ctr + 1
          let t1 := updateAt t (toSyms s1) fun nd => nd.setCls an
          let t2 := updateAt t1 (toSyms s2) fun nd => nd.setCls an
          let sn1 : Option (Option AbsName) × List Bool :=
            match e1.abstract_class_name with
            | none => (some none, al)
            | some a =>
              let r := singular_name a al
              match r.1 with
              | some nn => (some (some nn), r.2)
              | none => (none, r.2)
          match sn1.1 with
          | none => some (-1, t2, an, sn1.2)
          | some m1 =>
            let sn2 : Option (Option AbsName) × List Bool :=
              match e2.abstract_class_name with
              | none => (some none, sn1.2)
              | some a =>
                let r := singular_name a sn1.2
                match r.1 with
                | some nn => (some (some nn), r.2)
                | none => (none, r.2)
            match sn2.1 with
            | none => some (-1, t2, an, sn2.2)
            | some m2 => do
              let rc1 ← node_change_at t2 (toSyms s1) m1 m2 an sn2.2
              if rc1.1 = -1 then some (-1, rc1.2.1, an, rc1.2.2)
              else do
                let rc2 ← node_change_at rc1.2.1 (toSyms s2) m1 m2 an rc1.2.2
                if rc2.1 = -1 then some (-1, rc2.2.1, an, rc2.2.2)
                else do
                  let q0 ← recur_equiv rc2.2.1.next_zero e1.abstract_class
                    e2.abstract_class an m1 m2 rc2.2.2
                  let q1 ← recur_equiv rc2.2.1.next_one e1.abstract_class
                    e2.abstract_class an m1 m2 q0.2.2
                  let q2 ← recur_equiv rc2.2.1.next_two e1.abstract_class
                    e2.abstract_class an m1 m2 q1.2.2
                  let tfin : SeqTree :=
                    ((rc2.2.1.setChild TSym.s0 q0.2.1).setChild TSym.s1
                      q1.2.1).setChild TSym.s2 q2.2.1
                  if q0.1 ≠ -1 ∧ q1.1 ≠ -1 ∧ q2.1 ≠ -1 then
                    some (1, tfin, an, q2.2.2)
                  else some (-1, tfin, an, q2.2.2)

/-- All nodes of a subtree satisfy a predicate on the two mutable fields
(display name, class id). -/
def allNodes : SeqTree → (Option AbsName → Int → Bool) → Bool
  | .null, _ => true
  | .mk z o tw nm cls, P =>
    P nm cls && allNodes z P && allNodes o P && allNodes tw P

/-- Some node of a subtree carries the given class id. -/
def treeHasCls : SeqTree → Int → Bool
  | .null, _ => false
  | .mk z o tw _ cls, v =>
    decide (cls = v) || treeHasCls z v || treeHasCls o v || treeHasCls tw v

/-- Every class id in the tree is either the -1 sentinel or lies in
(0, ctr]: the invariant tying node class ids to the store counter. -/
def ClsBound (t : SeqTree) (ctr : Int) : Bool :=
  allNodes t fun _ c => decide (c = -1) || (decide (0 < c) && decide (c ≤ ctr))

/-- The class id of the node reached by a path, if any. -/
def clsAt (t : SeqTree) (p : List TSym) : Option Int := (walk t p).clsOpt

/-- Boolean path-order test on symbol lists: the first list is an
initial segment of the second. -/
def leadsTo : List TSym → List TSym → Bool
  | [], _ => true
  | _ :: _, [] => false
  | a :: as, b :: bs => decide (a = b) && leadsTo as bs

/-- Boolean initial-segment test on character strings. -/
def charPre : List Char → List Char → Bool
  | [], _ => true
  | _ :: _, [] => false
  | a :: as, b :: bs => decide (a = b) && charPre as bs

/-- Fixture: a store holding only the sequence "1" (besides the root). -/
def exT1 : SeqTree := (seq_add freshNode ['1'] []).2.1

/-- Fixture for the merge name policy: store holding "0" (no class, no
name) and "1" (named B, class 1), with counter 1. -/
def exC1 : SeqTree × Int :=
  ((seq_set_name (seq_add (seq_add freshNode ['0'] []).2.1 ['1'] []).2.1
      0 ['1'] ['B'] []).2.1,
    (seq_set_name (seq_add (seq_add freshNode ['0'] []).2.1 ['1'] []).2.1
      0 ['1'] ['B'] []).2.2.1)

/-- Fixture for the rename-scan failure: store holding "0" named A
(class 1), with counter 1. -/
def exC3 : SeqTree × Int :=
  ((seq_set_name (seq_add freshNode ['0'] []).2.1 0 ['0'] ['A'] []).2.1,
    (seq_set_name (seq_add freshNode ['0'] []).2.1 0 ['0'] ['A'] []).2.2.1)

/-- Fixture for the class broadcast scenario: store holding "0" (named
A, freshly classed) and "01", with its counter. -/
def exC5 : SeqTree × Int :=
  ((seq_set_name (seq_add (seq_add freshNode ['0'] []).2.1 ['0', '1'] []).2.1
      0 ['0'] ['A'] []).2.1,
    (seq_set_name (seq_add (seq_add freshNode ['0'] []).2.1 ['0', '1'] []).2.1
      0 ['0'] ['A'] []).2.2.1)

theorem walk_null : ∀ l : List TSym, walk SeqTree.null l = SeqTree.null
  | [] => rfl
  | _ :: _ => rfl

theorem walk_nil : ∀ t : SeqTree, walk t [] = t := by
  intro t; cases t <;> rfl

theorem walk_cons (t : SeqTree) (c : TSym) (cs : List TSym) :
    walk t (c :: cs) = walk (next_seq t c) cs := by
  cases t with
  | null =>
    show SeqTree.null = walk (next_seq SeqTree.null c) cs
    cases c <;> simp [next_seq, SeqTree.next_zero, SeqTree.next_one,
      SeqTree.next_two, walk_null]
  | mk z o tw nm cls => rfl

theorem walk_append (a : List TSym) :
    ∀ (t : SeqTree) (b : List TSym), walk t (a ++ b) = walk (walk t a) b := by
  induction a with
  | nil => intro t b; rw [walk_nil]; rfl
  | cons c cs ih =>
    intro t b
    rw [List.cons_append, walk_cons, walk_cons, ih]

theorem setChild_self (t : SeqTree) (c : TSym) (x : SeqTree)
    (h : next_seq t c = x) : t.setChild c x = t := by
  cases t with
  | null => rfl
  | mk z o tw nm cls =>
    cases c <;> (simp [next_seq, SeqTree.next_zero,
      SeqTree.next_one, SeqTree.next_two] at h; simp [SeqTree.setChild, h])

theorem next_seq_setChild (z o tw : SeqTree) (nm : Option AbsName)
    (cls : Int) (c : TSym) (x : SeqTree) (d : TSym) :
    next_seq ((SeqTree.mk z o tw nm cls).setChild c x) d =
      if d = c then x else next_seq (SeqTree.mk z o tw nm cls) d := by
  cases c <;> cases d <;> simp [next_seq, SeqTree.setChild,
    SeqTree.next_zero, SeqTree.next_one, SeqTree.next_two]

theorem check_str_ne_nil {s : List Char} (h : check_str_for_inval s = 0) :
    s ≠ [] := by
  intro hs
  rw [hs] at h
  simp [check_str_for_inval] at h

theorem check_str_all {s : List Char} (h : check_str_for_inval s = 0) :
    s.all (fun c => (charToSym c).isSome) = true := by
  by_contra hall
  unfold check_str_for_inval at h
  rcases em (s = []) with he | he
  · simp [he] at h
  · simp [he, hall] at h

theorem check_str_take {s : List Char} {k : ℕ} (hk : 1 ≤ k)
    (h : check_str_for_inval s = 0) : check_str_for_inval (s.take k) = 0 := by
  have hne : s.take k ≠ [] := by
    intro hnil
    rw [List.take_eq_nil_iff] at hnil
    rcases hnil with h1 | h1
    · omega
    · exact check_str_ne_nil h h1
  have hall : (s.take k).all (fun c => (charToSym c).isSome) = true := by
    rw [List.all_eq_true]
    intro x hx
    exact List.all_eq_true.mp (check_str_all h) x (List.take_subset k s hx)
  unfold check_str_for_inval
  simp [hne, hall]

theorem toSyms_append (a b : List Char) :
    toSyms (a ++ b) = toSyms a ++ toSyms b := by
  unfold toSyms
  exact List.filterMap_append a b charToSym

theorem walk_isNode_append {t : SeqTree} {a b : List TSym}
    (h : (walk t (a ++ b)).isNode = true) : (walk t a).isNode = true := by
  rw [walk_append] at h
  cases hw : walk t a with
  | null => rw [hw, walk_null] at h; simp [SeqTree.isNode] at h
  | mk z o tw nm cls => rfl

/-- Claim C7: prefix closure holds for every store state: whenever a
sequence is present (seq_valid = 1), every non-empty take of it is
present too.  This is a structural property of the trie walk, so it is
an invariant of every state reachable by the public operations. -/
theorem claim_C7 (t : SeqTree) (s : List Char) (k : ℕ) (hk : 1 ≤ k)
    (hs : check_str_for_inval s = 0) (hv : seq_valid t s = 1) :
    seq_valid t (s.take k) = 1 := by
  have htk := check_str_take hk hs
  unfold seq_valid at hv ⊢
  rw [hs] at hv
  rw [htk]
  simp only [show (0 : Int) ≠ -1 by decide, if_false] at hv ⊢
  by_cases ht : t = SeqTree.null
  · rw [if_pos ht] at hv; simp at hv
  · rw [if_neg ht] at hv ⊢
    have hw : (walk t (toSyms s)).isNode = true := by
      by_contra hw
      simp [hw] at hv
    have hsplit : toSyms s = toSyms (s.take k) ++ toSyms (s.drop k) := by
      rw [← toSyms_append, List.take_append_drop]
    rw [hsplit] at hw
    rw [walk_isNode_append hw]
    rfl

/-- Witness for C7 at a concrete store and sequence. -/
theorem claim_C7_witness :
    1 ≤ 1 ∧ check_str_for_inval ['0', '1'] = 0 ∧
      seq_valid exC5.1 ['0', '1'] = 1 ∧
      seq_valid exC5.1 (['0', '1'].take 1) = 1 :=
  ⟨by decide, by decide, by decide,
    claim_C7 exC5.1 ['0', '1'] 1 (by decide) (by decide) (by decide)⟩

theorem seq_add_aux_fail :
    ∀ (l : List TSym) (t : SeqTree) (al : List Bool),
      (seq_add_aux t l al).1 = -1 → (seq_add_aux t l al).2.1 = t := by
  intro l
  induction l with
  | nil => intro t al h; simp [seq_add_aux] at h
  | cons c cs ih =>
    intro t al h
    cases hn : next_seq t c with
    | null =>
      simp only [seq_add_aux, hn] at h ⊢
      by_cases ha : (allocStep al).1 = true
      · rw [if_pos ha] at h ⊢
        by_cases hr : (seq_add_aux freshNode cs (allocStep al).2).1 = -1
        · rw [if_pos hr]
          exact setChild_self t c SeqTree.null hn
        · rw [if_neg hr] at h
          simp at h
      · rw [if_neg ha] at h ⊢
    | mk z1 o1 t1 n1 c1 =>
      simp only [seq_add_aux, hn] at h ⊢
      have := ih (SeqTree.mk z1 o1 t1 n1 c1) al h
      rw [this]
      exact setChild_self t c (SeqTree.mk z1 o1 t1 n1 c1) hn

/-- Claim C2: if seq_add fails (result -1) on a valid sequence - which
on a valid sequence and a live store can only be the OutOfMemory path -
the store is exactly its pre-call state (the freshly created run has
been deleted and detached), so membership of every sequence is
unchanged. -/
theorem claim_C2 (t : SeqTree) (s : List Char) (al : List Bool)
    (t2 : SeqTree) (al2 : List Bool) (hs : check_str_for_inval s = 0)
    (h : seq_add t s al = (-1, t2, al2)) :
    t2 = t ∧ ∀ q, seq_valid t2 q = seq_valid t q := by
  unfold seq_add at h
  by_cases ht : t = SeqTree.null
  · rw [if_pos ht] at h
    have : t2 = t := by
      have := congrArg (fun x => x.2.1) h
      simpa using this.symm
    exact ⟨this, by rw [this]; intro q; rfl⟩
  · rw [if_neg ht, hs] at h
    simp only [show (0 : Int) ≠ -1 by decide, if_false] at h
    have h1 : (seq_add_aux t (toSyms s) al).1 = -1 := by rw [h]
    have h2 := seq_add_aux_fail (toSyms s) t al h1
    rw [h] at h2
    simp only at h2
    exact ⟨h2, by rw [h2]; intro q; rfl⟩

/-- Witness for C2: one-symbol insertion whose single allocation fails. -/
theorem claim_C2_witness :
    check_str_for_inval ['0'] = 0 ∧
      seq_add freshNode ['0'] [false] = (-1, freshNode, []) ∧
      freshNode = freshNode ∧
      ∀ q, seq_valid freshNode q = seq_valid freshNode q :=
  ⟨by decide, by decide,
    (claim_C2 freshNode ['0'] [false] freshNode [] (by decide) (by decide)).1,
    (claim_C2 freshNode ['0'] [false] freshNode [] (by decide) (by decide)).2⟩

/-- Claim C10 (implicit): merging a (valid) sequence of a live store
with the very same sequence argument - the C pointer comparison
s1 == s2, modelled by ptrEq = true - returns 0 (Unchanged) with no
mutation at all: tree, counter and oracle are untouched, whatever class
the endpoint has (no new class id is minted), and even when the
sequence is absent. -/
theorem claim_C10 (t : SeqTree) (ctr : Int) (s : List Char)
    (al : List Bool) (ht : t ≠ SeqTree.null)
    (hs : check_str_for_inval s = 0) :
    seq_equiv t ctr s s true al = some (0, t, ctr, al) := by
  unfold seq_equiv
  rw [hs]
  simp [ht]

/-- Witness for C10 at a concrete store. -/
theorem claim_C10_witness :
    exC5.1 ≠ SeqTree.null ∧ check_str_for_inval ['0'] = 0 ∧
      seq_equiv exC5.1 exC5.2 ['0'] ['0'] true [] =
        some (0, exC5.1, exC5.2, []) :=
  ⟨by decide, by decide, claim_C10 exC5.1 exC5.2 ['0'] [] (by decide) (by decide)⟩

/-- Counterexample to claim C4: in the store holding only "1", looking
up the absent sequence "0" and the present-but-unnamed sequence "1"
produce the very same observable outcome (NULL pointer, errno set to 0),
so the NotFound and NoName cases are not distinguishable by the caller. -/
theorem claim_C4_cex :
    seq_valid exT1 ['0'] = 0 ∧ seq_valid exT1 ['1'] = 1 ∧
      seq_get_name exT1 ['0'] = seq_get_name exT1 ['1'] ∧
      seq_get_name exT1 ['0'] = (none, some 0) := by
  refine ⟨by decide, by decide, by decide, by decide⟩

/-- Claim C4 as amended: for a valid sequence on a live store,
seq_get_name returns NULL with errno set to 0 both when the path is
missing and when the endpoint node exists but carries no name - one
indistinguishable outcome, not two - and returns the stored display
name (errno untouched) when the node exists and is named. -/
theorem claim_C4 (t : SeqTree) (s : List Char) (ht : t ≠ SeqTree.null)
    (hs : check_str_for_inval s = 0) :
    (walk t (toSyms s) = SeqTree.null → seq_get_name t s = (none, some 0)) ∧
      (walk t (toSyms s) ≠ SeqTree.null →
        (walk t (toSyms s)).abstract_class_name = none →
          seq_get_name t s = (none, some 0)) ∧
      (∀ nm, (walk t (toSyms s)).abstract_class_name = some nm →
        seq_get_name t s = (some nm, none)) := by
  refine ⟨fun hw => ?_, fun hw hn => ?_, fun nm hn => ?_⟩
  · unfold seq_get_name
    rw [hs]
    simp [ht, hw]
  · unfold seq_get_name
    rw [hs]
    simp only [ht, if_neg, show (0 : Int) ≠ -1 by decide, if_false]
    cases hE : walk t (toSyms s) with
    | null => exact absurd hE hw
    | mk z o tw nm cls =>
      rw [hE] at hn
      simp [hn, ht]
  · unfold seq_get_name
    rw [hs]
    cases hE : walk t (toSyms s) with
    | null => rw [hE] at hn; simp [SeqTree.abstract_class_name] at hn
    | mk z o tw nm2 cls =>
      rw [hE] at hn
      simp [hn, ht]

/-- Witness for C4 (amended) at the fixture store and sequence "1". -/
theorem claim_C4_witness :
    exT1 ≠ SeqTree.null ∧ check_str_for_inval ['1'] = 0 ∧
      ((walk exT1 (toSyms ['1']) = SeqTree.null →
          seq_get_name exT1 ['1'] = (none, some 0)) ∧
        (walk exT1 (toSyms ['1']) ≠ SeqTree.null →
          (walk exT1 (toSyms ['1'])).abstract_class_name = none →
            seq_get_name exT1 ['1'] = (none, some 0)) ∧
        (∀ nm, (walk exT1 (toSyms ['1'])).abstract_class_name = some nm →
          seq_get_name exT1 ['1'] = (some nm, none))) :=
  ⟨by decide, by decide, claim_C4 exT1 ['1'] (by decide) (by decide)⟩

/-- Claim C1 fails on the code: in the fixture store "0" and "1" are
both present, their endpoints are not in a common non-none class, and
exactly one endpoint (that of s2 = "1") carries a name, so the claimed
policy says the merged class is named B; instead seq_equiv reaches
node_change with n1 = NULL, n2 = "B" and evaluates strcmp(NULL, "B"),
which is undefined behaviour (outer none).  The dead (!n1 && n2)
branch right below the faulty condition shows the intended, specified
handling. -/
theorem claim_C1 :
    seq_valid exC1.1 ['0'] = 1 ∧ seq_valid exC1.1 ['1'] = 1 ∧
      (seq_get_name exC1.1 ['0']).1 = none ∧
      (seq_get_name exC1.1 ['1']).1 = some ['B'] ∧
      clsAt exC1.1 (toSyms ['0']) = some (-1) ∧
      seq_equiv exC1.1 exC1.2 ['0'] ['1'] false [] = none := by
  refine ⟨by decide, by decide, by decide, by decide, by decide, by decide⟩

/-- Claim C3 fails on the code: in the fixture store "0" is named A in
class 1; renaming it to B with the single rename allocation failing
should, per the claim, abort and report OutOfMemory (-1).  Instead
recur_seq_name converts the -1 of replace_or_set_seq_name into 0 via
(result == 1), no caller treats it as an error, and seq_set_name
returns 1 (success) while the failed node has simply lost its name. -/
theorem claim_C3 :
    (seq_get_name exC3.1 ['0']).1 = some ['A'] ∧
      clsAt exC3.1 (toSyms ['0']) = some 1 ∧
      (seq_set_name exC3.1 exC3.2 ['0'] ['B'] [false]).1 = 1 ∧
      (seq_get_name
        (seq_set_name exC3.1 exC3.2 ['0'] ['B'] [false]).2.1 ['0']).1 =
          none := by
  refine ⟨by decide, by decide, by decide, by decide⟩

theorem seq_remove_aux_none_iff :
    ∀ (cs : List TSym) (t : SeqTree) (c : TSym),
      seq_remove_aux t c cs = none ↔ walk (next_seq t c) cs = SeqTree.null := by
  intro cs
  induction cs with
  | nil =>
    intro t c
    rw [walk_nil]
    cases hn : next_seq t c with
    | null => simp [seq_remove_aux, hn]
    | mk z o tw nm cls => simp [seq_remove_aux, hn]
  | cons c2 cs2 ih =>
    intro t c
    cases hn : next_seq t c with
    | null => simp [seq_remove_aux, hn, walk_null]
    | mk z o tw nm cls =>
      rw [walk_cons]
      simp [seq_remove_aux, hn, Option.map_eq_none, ih]

theorem seq_remove_aux_walk :
    ∀ (cs : List TSym) (t : SeqTree) (c : TSym) (t2 : SeqTree),
      seq_remove_aux t c cs = some t2 →
        ∀ qq, (walk t2 qq).isNode =
          (if leadsTo (c :: cs) qq then false else (walk t qq).isNode) := by
  intro cs
  induction cs with
  | nil =>
    intro t c t2 h qq
    cases hn : next_seq t c with
    | null => simp [seq_remove_aux, hn] at h
    | mk z1 o1 t1 n1 c1 =>
      simp only [seq_remove_aux, hn] at h
      have ht2 : t2 = t.setChild c SeqTree.null := (Option.some_inj.mp h).symm
      have htn : t ≠ SeqTree.null := by
        intro he
        rw [he] at hn
        cases c <;> simp [next_seq, SeqTree.next_zero, SeqTree.next_one,
          SeqTree.next_two] at hn
      obtain ⟨z, o, tw, nm, cls, rfl⟩ :
          ∃ z o tw nm cls, t = SeqTree.mk z o tw nm cls := by
        cases t with
        | null => exact absurd rfl htn
        | mk z o tw nm cls => exact ⟨z, o, tw, nm, cls, rfl⟩
      cases qq with
      | nil =>
        rw [walk_nil, walk_nil, ht2]
        cases c <;> simp [leadsTo, SeqTree.setChild, SeqTree.isNode]
      | cons d ds =>
        rw [walk_cons, walk_cons, ht2, next_seq_setChild]
        by_cases hdc : d = c
        · rw [if_pos hdc, walk_null]
          simp [leadsTo, hdc, SeqTree.isNode]
        · rw [if_neg hdc]
          have : leadsTo (c :: []) (d :: ds) = false := by
            simp [leadsTo]
            intro hcd
            exact absurd hcd.symm hdc
          rw [this]
          simp
  | cons c2 cs2 ih =>
    intro t c t2 h qq
    cases hn : next_seq t c with
    | null => simp [seq_remove_aux, hn] at h
    | mk z1 o1 t1 n1 c1 =>
      simp only [seq_remove_aux, hn, Option.map_eq_some'] at h
      obtain ⟨ch2, hch2, ht2⟩ := h
      have htn : t ≠ SeqTree.null := by
        intro he
        rw [he] at hn
        cases c <;> simp [next_seq, SeqTree.next_zero, SeqTree.next_one,
          SeqTree.next_two] at hn
      obtain ⟨z, o, tw, nm, cls, rfl⟩ :
          ∃ z o tw nm cls, t = SeqTree.mk z o tw nm cls := by
        cases t with
        | null => exact absurd rfl htn
        | mk z o tw nm cls => exact ⟨z, o, tw, nm, cls, rfl⟩
      cases qq with
      | nil =>
        rw [walk_nil, walk_nil, ← ht2]
        cases c <;> simp [leadsTo, SeqTree.setChild, SeqTree.isNode]
      | cons d ds =>
        rw [walk_cons, walk_cons, ← ht2, next_seq_setChild]
        by_cases hdc : d = c
        · rw [if_pos hdc]
          subst hdc
          rw [hn, ih (SeqTree.mk z1 o1 t1 n1 c1) c2 ch2 hch2 ds]
          simp [leadsTo]
        · rw [if_neg hdc]
          have : leadsTo (c :: c2 :: cs2) (d :: ds) = false := by
            simp [leadsTo]
            intro hcd
            exact absurd hcd.symm hdc
          rw [this]
          simp

theorem charToSym_eq_some {a : Char} {x : TSym} (h : charToSym a = some x) :
    (a = '0' ∧ x = TSym.s0) ∨ (a = '1' ∧ x = TSym.s1) ∨
      (a = '2' ∧ x = TSym.s2) := by
  unfold charToSym at h
  split_ifs at h with h1 h2 h3 <;> simp at h
  · exact Or.inl ⟨h1, h.symm⟩
  · exact Or.inr (Or.inl ⟨h2, h.symm⟩)
  · exact Or.inr (Or.inr ⟨h3, h.symm⟩)

theorem charToSym_inj {a b : Char} {x y : TSym}
    (ha : charToSym a = some x) (hb : charToSym b = some y) :
    (a = b) = (x = y) := by
  rcases charToSym_eq_some ha with ⟨ha1, ha2⟩ | ⟨ha1, ha2⟩ | ⟨ha1, ha2⟩ <;>
    rcases charToSym_eq_some hb with ⟨hb1, hb2⟩ | ⟨hb1, hb2⟩ | ⟨hb1, hb2⟩ <;>
      subst ha1 <;> subst ha2 <;> subst hb1 <;> subst hb2 <;> simp

theorem toSyms_cons {a : Char} {x : TSym} (as : List Char)
    (h : charToSym a = some x) : toSyms (a :: as) = x :: toSyms as := by
  simp [toSyms, List.filterMap_cons, h]

theorem leadsTo_toSyms :
    ∀ s q : List Char,
      s.all (fun c => (charToSym c).isSome) = true →
      q.all (fun c => (charToSym c).isSome) = true →
      leadsTo (toSyms s) (toSyms q) = charPre s q := by
  intro s
  induction s with
  | nil => intro q _ _; simp [toSyms, leadsTo, charPre]
  | cons a as ih =>
    intro q hs hq
    simp only [List.all_cons, Bool.and_eq_true] at hs
    obtain ⟨ha, has⟩ := hs
    obtain ⟨x, hx⟩ := Option.isSome_iff_exists.mp ha
    rw [toSyms_cons as hx]
    cases q with
    | nil => simp [toSyms, leadsTo, charPre]
    | cons b bs =>
      simp only [List.all_cons, Bool.and_eq_true] at hq
      obtain ⟨hb, hbs⟩ := hq
      obtain ⟨y, hy⟩ := Option.isSome_iff_exists.mp hb
      rw [toSyms_cons bs hy]
      show (decide (x = y) && leadsTo (toSyms as) (toSyms bs)) =
        (decide (a = b) && charPre as bs)
      rw [ih bs has hbs]
      have hd : decide (x = y) = decide (a = b) :=
        decide_eq_decide.mpr (by rw [charToSym_inj hx hy])
      rw [hd]

/-- Claim C9: seq_remove on a valid sequence of a live store returns 0
with no mutation when some initial segment of the path is missing;
otherwise it returns 1 (Removed), afterwards every valid sequence that
extends s (s an initial segment of it, including s itself) is absent,
and every valid sequence that does not extend s has exactly the
membership it had before the call. -/
theorem claim_C9 :
    (∀ t s, t ≠ SeqTree.null → check_str_for_inval s = 0 →
      walk t (toSyms s) = SeqTree.null → seq_remove t s = (0, t)) ∧
      (∀ t s, t ≠ SeqTree.null → check_str_for_inval s = 0 →
        walk t (toSyms s) ≠ SeqTree.null →
          (seq_remove t s).1 = 1 ∧
          ∀ q, check_str_for_inval q = 0 →
            (charPre s q = true → seq_valid (seq_remove t s).2 q = 0) ∧
            (charPre s q = false →
              seq_valid (seq_remove t s).2 q = seq_valid t q)) := by
  have hdecomp : ∀ s : List Char, check_str_for_inval s = 0 →
      ∃ x xs, toSyms s = x :: xs := by
    intro s hs
    cases s with
    | nil => exact absurd rfl (check_str_ne_nil hs)
    | cons a as =>
      have hall := check_str_all hs
      simp only [List.all_cons, Bool.and_eq_true] at hall
      obtain ⟨ha, _⟩ := hall
      obtain ⟨x, hx⟩ := Option.isSome_iff_exists.mp ha
      exact ⟨x, toSyms as, toSyms_cons as hx⟩
  constructor
  · intro t s ht hs hw
    obtain ⟨x, xs, hts⟩ := hdecomp s hs
    unfold seq_remove
    rw [if_neg ht, hs]
    simp only [show (0 : Int) ≠ -1 by decide, if_false, hts]
    rw [hts, walk_cons] at hw
    have : seq_remove_aux t x xs = none := (seq_remove_aux_none_iff xs t x).mpr hw
    rw [this]
  · intro t s ht hs hw
    obtain ⟨x, xs, hts⟩ := hdecomp s hs
    rw [hts, walk_cons] at hw
    obtain ⟨t2, ht2⟩ : ∃ t2, seq_remove_aux t x xs = some t2 := by
      cases hr : seq_remove_aux t x xs with
      | none => exact absurd ((seq_remove_aux_none_iff xs t x).mp hr) hw
      | some t2 => exact ⟨t2, rfl⟩
    have hrem : seq_remove t s = (1, t2) := by
      unfold seq_remove
      rw [if_neg ht, hs]
      simp only [show (0 : Int) ≠ -1 by decide, if_false, hts]
      rw [ht2]
    have hwalk := seq_remove_aux_walk xs t x t2 ht2
    have ht2n : t2 ≠ SeqTree.null := by
      have := hwalk []
      rw [walk_nil, walk_nil] at this
      simp only [leadsTo] at this
      intro he
      rw [he] at this
      cases t with
      | null => exact absurd rfl ht
      | mk z o tw nm cls => simp [SeqTree.isNode] at this
    refine ⟨by rw [hrem], fun q hq => ?_⟩
    have hbridge := leadsTo_toSyms s q (check_str_all hs) (check_str_all hq)
    rw [hts] at hbridge
    constructor
    · intro hpre
      rw [hrem]
      unfold seq_valid
      rw [hq]
      simp only [show (0 : Int) ≠ -1 by decide, if_false, if_neg ht2n]
      have := hwalk (toSyms q)
      rw [hbridge, hpre, if_pos rfl] at this
      rw [this]
      simp
    · intro hpre
      rw [hrem]
      unfold seq_valid
      rw [hq]
      simp only [show (0 : Int) ≠ -1 by decide, if_false, if_neg ht2n,
        if_neg ht]
      have := hwalk (toSyms q)
      rw [hbridge, hpre] at this
      simp at this
      rw [this]

/-- Witness for C9: removing "0" from the store holding "0" and "01"
returns 1 and leaves "01" absent. -/
theorem claim_C9_witness :
    exC5.1 ≠ SeqTree.null ∧ check_str_for_inval ['0'] = 0 ∧
      walk exC5.1 (toSyms ['0']) ≠ SeqTree.null ∧
      check_str_for_inval ['0', '1'] = 0 ∧ charPre ['0'] ['0', '1'] = true ∧
      (seq_remove exC5.1 ['0']).1 = 1 ∧
      seq_valid (seq_remove exC5.1 ['0']).2 ['0', '1'] = 0 :=
  ⟨by decide, by decide, by decide, by decide, by decide,
    (claim_C9.2 exC5.1 ['0'] (by decide) (by decide) (by decide)).1,
    ((claim_C9.2 exC5.1 ['0'] (by decide) (by decide) (by decide)).2
      ['0', '1'] (by decide)).1 (by decide)⟩

theorem isNode_of_ne_null {t : SeqTree} (h : t ≠ SeqTree.null) :
    t.isNode = true := by
  cases t with
  | null => exact absurd rfl h
  | mk z o tw nm cls => rfl

theorem recur_seq_name_nil :
    ∀ (t : SeqTree) (n : AbsName) (cac : Int),
      (recur_seq_name t n cac []).2.2 = [] ∧
        (recur_seq_name t n cac []).1 = (if t.isNode then 1 else 0) ∧
        allNodes (recur_seq_name t n cac []).2.1
          (fun nm c => if c = cac then decide (nm = some n) else true) =
            true := by
  intro t
  induction t with
  | null => intro n cac; refine ⟨rfl, rfl, rfl⟩
  | mk z o tw nm cls ihz iho ihtw =>
    intro n cac
    obtain ⟨hz1, hz2, hz3⟩ := ihz n cac
    obtain ⟨ho1, ho2, ho3⟩ := iho n cac
    obtain ⟨ht1, ht2, ht3⟩ := ihtw n cac
    simp only [recur_seq_name, hz1, ho1, ht1]
    have hzne : (recur_seq_name z n cac []).1 ≠ -1 := by
      rw [hz2]; split <;> decide
    have hone : (recur_seq_name o n cac []).1 ≠ -1 := by
      rw [ho2]; split <;> decide
    have htne : (recur_seq_name tw n cac []).1 ≠ -1 := by
      rw [ht2]; split <;> decide
    rw [if_neg (by
      intro hc
      rcases hc with hc | hc | hc
      · exact hzne hc
      · exact hone hc
      · exact htne hc)]
    by_cases hcac : cls = cac
    · rw [if_pos hcac]
      simp only [replace_or_set_seq_name, allocStep]
      refine ⟨rfl, by simp [SeqTree.isNode], ?_⟩
      simp only [allNodes, hz3, ho3, ht3, hcac]
      simp
    · rw [if_neg hcac]
      refine ⟨rfl, by simp [SeqTree.isNode], ?_⟩
      simp only [allNodes, hz3, ho3, ht3]
      simp [hcac]

/-- Claim C5: on the renaming path of seq_set_name (endpoint already
classed, current name differing from n) with every allocation
succeeding, the call returns 1, leaves the counter alone, and afterwards
every node of the whole store whose class id equals the endpoint's class
id carries the display name n.  In particular, in the concrete scenario
where s2 = "01" joined the class of s1 = "0" (named A) through merge,
set_name(s1, "Z") makes get_name(s2) return "Z". -/
theorem claim_C5 :
    (∀ (t : SeqTree) (ctr : Int) (s : List Char) (n : AbsName),
      t ≠ SeqTree.null → check_str_for_inval s = 0 → n ≠ [] →
      (walk t (toSyms s)).isNode = true →
      (walk t (toSyms s)).abstract_class ≠ -1 →
      (walk t (toSyms s)).abstract_class_name ≠ some n →
      (seq_set_name t ctr s n []).1 = 1 ∧
        (seq_set_name t ctr s n []).2.2.1 = ctr ∧
        allNodes (seq_set_name t ctr s n []).2.1
          (fun nm c => if c = (walk t (toSyms s)).abstract_class
            then decide (nm = some n) else true) = true) ∧
      (seq_equiv exC5.1 exC5.2 ['0'] ['0', '1'] false []).map
        (fun x => (seq_get_name
          (seq_set_name x.2.1 x.2.2.1 ['0'] ['Z'] []).2.1 ['0', '1']).1) =
        some (some ['Z']) := by
  constructor
  · intro t ctr s n ht hs hn hwn hcls hname
    unfold seq_set_name
    rw [hs]
    simp only [if_neg ht, show (0 : Int) ≠ -1 by decide, if_false,
      if_neg hn]
    cases hE : walk t (toSyms s) with
    | null => rw [hE] at hwn; simp [SeqTree.isNode] at hwn
    | mk z o tw nm cls =>
      rw [hE] at hcls hname
      simp only [SeqTree.abstract_class, SeqTree.abstract_class_name]
        at hcls hname
      obtain ⟨h1, h2, h3⟩ := recur_seq_name_nil t n cls
      simp only [SeqTree.abstract_class, SeqTree.abstract_class_name,
        if_neg hcls]
      rw [if_pos (isNode_of_ne_null ht)] at h2
      cases nm with
      | none =>
        dsimp only
        exact ⟨h2, rfl, h3⟩
      | some cur =>
        have hne : n ≠ cur := by
          intro he
          rw [he] at hname
          exact hname rfl
        dsimp only
        rw [if_neg hne]
        exact ⟨h2, rfl, h3⟩
  · decide

/-- Witness for C5 on the store where "0" is named A in class 1. -/
theorem claim_C5_witness :
    exC3.1 ≠ SeqTree.null ∧ check_str_for_inval ['0'] = 0 ∧
      (['Z'] : AbsName) ≠ [] ∧
      (walk exC3.1 (toSyms ['0'])).isNode = true ∧
      (walk exC3.1 (toSyms ['0'])).abstract_class ≠ -1 ∧
      (walk exC3.1 (toSyms ['0'])).abstract_class_name ≠ some ['Z'] ∧
      ((seq_set_name exC3.1 exC3.2 ['0'] ['Z'] []).1 = 1 ∧
        (seq_set_name exC3.1 exC3.2 ['0'] ['Z'] []).2.2.1 = exC3.2 ∧
        allNodes (seq_set_name exC3.1 exC3.2 ['0'] ['Z'] []).2.1
          (fun nm c => if c = (walk exC3.1 (toSyms ['0'])).abstract_class
            then decide (nm = some ['Z']) else true) = true) :=
  ⟨by decide, by decide, by decide, by decide, by decide, by decide,
    claim_C5.1 exC3.1 exC3.2 ['0'] ['Z'] (by decide) (by decide) (by decide)
      (by decide) (by decide) (by decide)⟩

theorem node_change_cls {nm n1 n2 : Option AbsName} {cl : Int}
    {al : List Bool} {rn : Int × Option AbsName × Int × List Bool}
    (h : node_change nm n1 n2 cl al = some rn) : rn.2.2.1 = cl := by
  cases n1 with
  | none =>
    cases n2 with
    | none =>
      simp only [node_change] at h
      cases h
      rfl
    | some b => simp [node_change] at h
  | some a =>
    cases n2 with
    | none =>
      simp only [node_change] at h
      rcases hs : (singular_name a al).1 with hv | hv <;> rw [hs] at h <;>
        · cases h
          rfl
    | some b =>
      simp only [node_change] at h
      by_cases hab : a = b
      · rw [if_pos hab] at h
        rcases hs : (singular_name a al).1 with hv | hv <;> rw [hs] at h <;>
          · cases h
            rfl
      · rw [if_neg hab] at h
        rcases hs : (merge_names (some a) (some b) al).1 with hv | hv <;>
          rw [hs] at h <;>
          · cases h
            rfl

theorem clsAt_null : ∀ p : List TSym, clsAt SeqTree.null p = none := by
  intro p
  unfold clsAt
  rw [walk_null]
  rfl

theorem clsAt_cons (t : SeqTree) (c : TSym) (cs : List TSym) :
    clsAt t (c :: cs) = clsAt (next_seq t c) cs := by
  unfold clsAt
  rw [walk_cons]

theorem clsAt_ne_null {t : SeqTree} {p : List TSym} {v : Int}
    (h : clsAt t p = some v) : t ≠ SeqTree.null := by
  intro he
  rw [he, clsAt_null] at h
  cases h

theorem clsAt_updateAt (f : SeqTree → SeqTree) (v : Int)
    (hch : ∀ x c, next_seq (f x) c = next_seq x c)
    (hf : ∀ x, (f x).clsOpt = x.clsOpt.map fun _ => v) :
    ∀ (q : List TSym) (t : SeqTree) (p : List TSym),
      clsAt (updateAt t q f) p =
        if p = q then (clsAt t p).map (fun _ => v) else clsAt t p := by
  intro q
  induction q with
  | nil =>
    intro t p
    cases p with
    | nil =>
      simp only [updateAt, if_pos rfl]
      unfold clsAt
      rw [walk_nil, walk_nil]
      exact hf t
    | cons d ds =>
      simp only [updateAt, if_neg (List.cons_ne_nil d ds)]
      rw [clsAt_cons, clsAt_cons, hch]
  | cons c qs ih =>
    intro t p
    cases hn : next_seq t c with
    | null =>
      simp only [updateAt, hn]
      by_cases hp : p = c :: qs
      · rw [if_pos hp, hp, clsAt_cons, hn, clsAt_null]
        rfl
      · rw [if_neg hp]
    | mk z1 o1 t1 n1 c1 =>
      have htn : t ≠ SeqTree.null := by
        intro he
        rw [he] at hn
        cases c <;> simp [next_seq, SeqTree.next_zero, SeqTree.next_one,
          SeqTree.next_two] at hn
      obtain ⟨z, o, tw, nm, cls, rfl⟩ :
          ∃ z o tw nm cls, t = SeqTree.mk z o tw nm cls := by
        cases t with
        | null => exact absurd rfl htn
        | mk z o tw nm cls => exact ⟨z, o, tw, nm, cls, rfl⟩
      simp only [updateAt, hn]
      cases p with
      | nil =>
        rw [if_neg (by simp)]
        unfold clsAt
        rw [walk_nil, walk_nil]
        cases c <;> rfl
      | cons d ds =>
        rw [clsAt_cons, clsAt_cons, next_seq_setChild]
        by_cases hdc : d = c
        · subst hdc
          rw [if_pos rfl, ih (SeqTree.mk z1 o1 t1 n1 c1) ds, hn]
          by_cases hds : ds = qs
          · rw [if_pos hds, if_pos (by rw [hds])]
          · rw [if_neg hds, if_neg (by
              intro hcon
              exact hds (List.cons_injective.eq_iff.mp hcon))]
        · rw [if_neg hdc, if_neg (by
            intro hcon
            exact hdc ((List.cons_eq_cons.mp hcon).1))]

theorem clsAt_nil_mk (z o tw : SeqTree) (nm : Option AbsName) (cls : Int) :
    clsAt (SeqTree.mk z o tw nm cls) [] = some cls := by
  unfold clsAt
  rw [walk_nil]
  rfl

theorem recur_equiv_cls :
    ∀ (t : SeqTree) (a1 a2 an : Int) (m1 m2 : Option AbsName)
      (al : List Bool) (r : Int) (t2 : SeqTree) (al2 : List Bool),
      recur_equiv t a1 a2 an m1 m2 al = some (r, t2, al2) → r ≠ -1 →
      ∀ p, clsAt t2 p = (clsAt t p).map
        (fun c => if c ≠ -1 ∧ (c = a1 ∨ c = a2) then an else c) := by
  intro t
  induction t with
  | null =>
    intro a1 a2 an m1 m2 al r t2 al2 h hr p
    simp only [recur_equiv, Option.some.injEq, Prod.mk.injEq] at h
    obtain ⟨h1, h2, h3⟩ := h
    rw [← h2, clsAt_null]
    rfl
  | mk z o tw nm cls ihz iho ihtw =>
    intro a1 a2 an m1 m2 al r t2 al2 h hr p
    simp only [recur_equiv] at h
    cases hrz : recur_equiv z a1 a2 an m1 m2 al with
    | none =>
      rw [hrz] at h
      simp only [Option.bind_eq_bind, Option.none_bind] at h
      exact Option.noConfusion h
    | some vz =>
      rw [hrz] at h
      simp only [Option.bind_eq_bind, Option.some_bind] at h
      cases hro : recur_equiv o a1 a2 an m1 m2 vz.2.2 with
      | none =>
        rw [hro] at h
        simp only [Option.bind_eq_bind, Option.none_bind] at h
        exact Option.noConfusion h
      | some vo =>
        rw [hro] at h
        simp only [Option.bind_eq_bind, Option.some_bind] at h
        cases hrt : recur_equiv tw a1 a2 an m1 m2 vo.2.2 with
        | none =>
          rw [hrt] at h
          simp only [Option.bind_eq_bind, Option.none_bind] at h
          exact Option.noConfusion h
        | some vt =>
          rw [hrt] at h
          simp only [Option.bind_eq_bind, Option.some_bind] at h
          by_cases hbad : vz.1 = -1 ∨ vo.1 = -1 ∨ vt.1 = -1
          · rw [if_pos hbad] at h
            simp only [Option.some.injEq, Prod.mk.injEq] at h
            exact absurd h.1.symm hr
          · rw [if_neg hbad] at h
            push_neg at hbad
            obtain ⟨hz1, ho1, ht1⟩ := hbad
            have ihz2 := ihz a1 a2 an m1 m2 al vz.1 vz.2.1 vz.2.2
              (by rw [hrz]) hz1
            have iho2 := iho a1 a2 an m1 m2 vz.2.2 vo.1 vo.2.1 vo.2.2
              (by rw [hro]) ho1
            have iht2 := ihtw a1 a2 an m1 m2 vo.2.2 vt.1 vt.2.1 vt.2.2
              (by rw [hrt]) ht1
            by_cases hcond : cls ≠ -1 ∧ (cls = a1 ∨ cls = a2)
            · rw [if_pos hcond] at h
              cases hnc : node_change nm m1 m2 an vt.2.2 with
              | none => rw [hnc] at h; simp at h
              | some rn =>
                rw [hnc] at h
                simp only [Option.map_some', Option.some.injEq,
                  Prod.mk.injEq] at h
                obtain ⟨hh1, hh2, hh3⟩ := h
                rw [← hh2]
                cases p with
                | nil =>
                  rw [clsAt_nil_mk, clsAt_nil_mk, node_change_cls hnc]
                  simp only [Option.map_some']
                  rw [if_pos hcond]
                | cons d ds =>
                  rw [clsAt_cons, clsAt_cons]
                  cases d <;>
                    simp only [next_seq, SeqTree.next_zero, SeqTree.next_one,
                      SeqTree.next_two] <;>
                    first
                      | exact ihz2 ds
                      | exact iho2 ds
                      | exact iht2 ds
            · rw [if_neg hcond] at h
              simp only [Option.some.injEq, Prod.mk.injEq] at h
              obtain ⟨hh1, hh2, hh3⟩ := h
              rw [← hh2]
              cases p with
              | nil =>
                rw [clsAt_nil_mk, clsAt_nil_mk]
                simp only [Option.map_some']
                rw [if_neg hcond]
              | cons d ds =>
                rw [clsAt_cons, clsAt_cons]
                cases d <;>
                  simp only [next_seq, SeqTree.next_zero, SeqTree.next_one,
                    SeqTree.next_two] <;>
                  first
                    | exact ihz2 ds
                    | exact iho2 ds
                    | exact iht2 ds

theorem check_str_cases (s : List Char) :
    check_str_for_inval s = 0 ∨ check_str_for_inval s = -1 := by
  unfold check_str_for_inval
  split_ifs <;> simp

theorem check_str_zero {s : List Char} (h : check_str_for_inval s ≠ -1) :
    check_str_for_inval s = 0 :=
  (check_str_cases s).resolve_right h

theorem toSyms_decomp {s : List Char} (hs : check_str_for_inval s = 0) :
    ∃ x xs, toSyms s = x :: xs := by
  cases s with
  | nil => exact absurd rfl (check_str_ne_nil hs)
  | cons a as =>
    have hall := check_str_all hs
    simp only [List.all_cons, Bool.and_eq_true] at hall
    obtain ⟨ha, _⟩ := hall
    obtain ⟨x, hx⟩ := Option.isSome_iff_exists.mp ha
    exact ⟨x, toSyms as, toSyms_cons as hx⟩

theorem clsAt_updateAt_setCls (v : Int) (q : List TSym) (t : SeqTree)
    (p : List TSym) :
    clsAt (updateAt t q fun nd => nd.setCls v) p =
      if p = q then (clsAt t p).map (fun _ => v) else clsAt t p :=
  clsAt_updateAt _ v
    (by intro x c; cases x <;> cases c <;> rfl)
    (by intro x; cases x <;> rfl) q t p

theorem clsAt_updateAt_setNameCls (w : Option AbsName) (v : Int)
    (q : List TSym) (t : SeqTree) (p : List TSym) :
    clsAt (updateAt t q fun x => (x.setName w).setCls v) p =
      if p = q then (clsAt t p).map (fun _ => v) else clsAt t p :=
  clsAt_updateAt _ v
    (by intro x c; cases x <;> cases c <;> rfl)
    (by intro x; cases x <;> rfl) q t p

theorem node_change_at_clsAt {t : SeqTree} {p : List TSym}
    {n1 n2 : Option AbsName} {cl : Int} {al : List Bool}
    {rc : Int × SeqTree × List Bool}
    (h : node_change_at t p n1 n2 cl al = some rc) :
    ∀ q v, clsAt t q = some v →
      clsAt rc.2.1 q = some (if q = p then cl else v) := by
  intro q v hq
  unfold node_change_at at h
  split at h
  · rename_i hw
    simp only [Option.some.injEq] at h
    by_cases hqp : q = p
    · subst hqp
      unfold clsAt at hq
      rw [hw] at hq
      cases hq
    · rw [← h]
      simp only
      rw [hq, if_neg hqp]
  · rename_i nd hne
    cases hnc : node_change (walk t p).abstract_class_name n1 n2 cl al with
    | none => rw [hnc] at h; simp at h
    | some rn =>
      rw [hnc] at h
      simp only [Option.map_some', Option.some.injEq] at h
      rw [← h]
      simp only
      rw [clsAt_updateAt_setNameCls]
      by_cases hqp : q = p
      · rw [if_pos hqp, if_pos hqp, hq]
        simp only [Option.map_some', Option.some.injEq]
        exact node_change_cls hnc
      · rw [if_neg hqp, if_neg hqp, hq]

theorem seq_equiv_unchanged_same (t : SeqTree) (ctr : Int)
    (s1 s2 : List Char) (pe : Bool) (al : List Bool)
    (ht : t ≠ SeqTree.null)
    (h1 : check_str_for_inval s1 = 0) (h2 : check_str_for_inval s2 = 0)
    (hw1 : walk t (toSyms s1) ≠ SeqTree.null)
    (hw2 : walk t (toSyms s2) ≠ SeqTree.null)
    (hc1 : (walk t (toSyms s1)).abstract_class ≠ -1)
    (hceq : (walk t (toSyms s1)).abstract_class =
      (walk t (toSyms s2)).abstract_class) :
    seq_equiv t ctr s1 s2 pe al = some (0, t, ctr, al) := by
  unfold seq_equiv
  rw [h1, h2]
  simp only [if_neg ht, show (0 : Int) ≠ -1 by decide, if_false]
  cases pe with
  | true => simp
  | false =>
    simp only [Bool.false_eq_true, if_false]
    cases hE1 : walk t (toSyms s1) with
    | null => exact absurd hE1 hw1
    | mk z1 o1 w1 nm1 c1 =>
      cases hE2 : walk t (toSyms s2) with
      | null => exact absurd hE2 hw2
      | mk z2 o2 w2 nm2 c2 =>
        rw [hE1] at hc1 hceq
        rw [hE2] at hceq
        simp only [SeqTree.abstract_class] at hc1 hceq
        rw [if_pos ⟨hc1, hceq⟩]

theorem ne_null_exists_mk {u : SeqTree} (hu : u ≠ SeqTree.null) :
    ∃ a b d nmx clsx, u = SeqTree.mk a b d nmx clsx := by
  cases u with
  | null => exact absurd rfl hu
  | mk a b d nmx clsx => exact ⟨a, b, d, nmx, clsx, rfl⟩

theorem seq_equiv_success_cls (t : SeqTree) (ctr : Int) (s1 s2 : List Char)
    (al : List Bool) (t2 : SeqTree) (ctr2 : Int) (al2 : List Bool)
    (h : seq_equiv t ctr s1 s2 false al = some (1, t2, ctr2, al2)) :
    ctr2 = ctr + 1 ∧ clsAt t2 (toSyms s1) = some (ctr + 1) ∧
      clsAt t2 (toSyms s2) = some (ctr + 1) := by
  unfold seq_equiv at h
  by_cases ht : t = SeqTree.null
  · rw [if_pos ht] at h; simp at h
  rw [if_neg ht] at h
  by_cases hs1 : check_str_for_inval s1 = -1
  · rw [if_pos hs1] at h; simp at h
  rw [if_neg hs1] at h
  by_cases hs2 : check_str_for_inval s2 = -1
  · rw [if_pos hs2] at h; simp at h
  rw [if_neg hs2] at h
  simp only [Bool.false_eq_true, if_false] at h
  split at h
  · simp at h
  rename_i e1x hne1
  split at h
  · simp at h
  rename_i e2x hne2
  by_cases hsame : (walk t (toSyms s1)).abstract_class ≠ -1 ∧
      (walk t (toSyms s1)).abstract_class = (walk t (toSyms s2)).abstract_class
  · rw [if_pos hsame] at h; simp at h
  rw [if_neg hsame] at h
  split at h
  · simp at h
  rename_i m1 hsn1
  split at h
  · simp at h
  rename_i m2 hsn2
  rw [Option.bind_eq_bind, Option.bind_eq_some] at h
  obtain ⟨rc1, hrc1, h⟩ := h
  by_cases hr1 : rc1.1 = -1
  · rw [if_pos hr1] at h; simp at h
  rw [if_neg hr1] at h
  rw [Option.bind_eq_some] at h
  obtain ⟨rc2, hrc2, h⟩ := h
  by_cases hr2 : rc2.1 = -1
  · rw [if_pos hr2] at h; simp at h
  rw [if_neg hr2] at h
  rw [Option.bind_eq_some] at h
  obtain ⟨q0, hq0, h⟩ := h
  rw [Option.bind_eq_some] at h
  obtain ⟨q1, hq1, h⟩ := h
  rw [Option.bind_eq_some] at h
  obtain ⟨q2, hq2, h⟩ := h
  by_cases hqall : q0.1 ≠ -1 ∧ q1.1 ≠ -1 ∧ q2.1 ≠ -1
  · rw [if_pos hqall] at h
    simp only [Option.some.injEq, Prod.mk.injEq] at h
    obtain ⟨h1, h2, h3, h4⟩ := h
    obtain ⟨v1, hv1⟩ : ∃ v, clsAt t (toSyms s1) = some v := by
      cases hw : walk t (toSyms s1) with
      | null => exact absurd hw hne1
      | mk za zb zc zd ze => exact ⟨ze, by unfold clsAt; rw [hw]; rfl⟩
    obtain ⟨v2, hv2⟩ : ∃ v, clsAt t (toSyms s2) = some v := by
      cases hw : walk t (toSyms s2) with
      | null => exact absurd hw hne2
      | mk za zb zc zd ze => exact ⟨ze, by unfold clsAt; rw [hw]; rfl⟩
    have hT1a : clsAt (updateAt t (toSyms s1) fun nd => nd.setCls (ctr + 1))
        (toSyms s1) = some (ctr + 1) := by
      rw [clsAt_updateAt_setCls, if_pos rfl, hv1]
      rfl
    obtain ⟨w2, hw2c⟩ : ∃ w,
        clsAt (updateAt t (toSyms s1) fun nd => nd.setCls (ctr + 1))
          (toSyms s2) = some w := by
      rw [clsAt_updateAt_setCls]
      by_cases hss : toSyms s2 = toSyms s1
      · rw [if_pos hss, hss, hv1]
        exact ⟨ctr + 1, rfl⟩
      · rw [if_neg hss, hv2]
        exact ⟨v2, rfl⟩
    have hT2a : clsAt (updateAt
        (updateAt t (toSyms s1) fun nd => nd.setCls (ctr + 1)) (toSyms s2)
          fun nd => nd.setCls (ctr + 1)) (toSyms s1) = some (ctr + 1) := by
      rw [clsAt_updateAt_setCls]
      split
      · rw [hT1a]; rfl
      · exact hT1a
    have hT2b : clsAt (updateAt
        (updateAt t (toSyms s1) fun nd => nd.setCls (ctr + 1)) (toSyms s2)
          fun nd => nd.setCls (ctr + 1)) (toSyms s2) = some (ctr + 1) := by
      rw [clsAt_updateAt_setCls, if_pos rfl, hw2c]
      rfl
    have hR1a := node_change_at_clsAt hrc1 (toSyms s1) (ctr + 1) hT2a
    simp only [ite_self] at hR1a
    have hR1b := node_change_at_clsAt hrc1 (toSyms s2) (ctr + 1) hT2b
    simp only [ite_self] at hR1b
    have hR2a := node_change_at_clsAt hrc2 (toSyms s1) (ctr + 1) hR1a
    simp only [ite_self] at hR2a
    have hR2b := node_change_at_clsAt hrc2 (toSyms s2) (ctr + 1) hR1b
    simp only [ite_self] at hR2b
    have hrcnn : rc2.2.1 ≠ SeqTree.null := clsAt_ne_null hR2a
    obtain ⟨a, b, d, nmx, clsx, hrc2t⟩ := ne_null_exists_mk hrcnn
    rw [hrc2t] at hq0 hq1 hq2 hR2a hR2b h2
    simp only [SeqTree.next_zero, SeqTree.next_one, SeqTree.next_two]
      at hq0 hq1 hq2
    have htfin : (((SeqTree.mk a b d nmx clsx).setChild TSym.s0
        q0.2.1).setChild TSym.s1 q1.2.1).setChild TSym.s2 q2.2.1 =
          SeqTree.mk q0.2.1 q1.2.1 q2.2.1 nmx clsx := rfl
    rw [htfin] at h2
    obtain ⟨hqa, hqb, hqc⟩ := hqall
    refine ⟨h3.symm, ?_, ?_⟩
    · rw [← h2]
      obtain ⟨x, xs, hts⟩ := toSyms_decomp (check_str_zero hs1)
      rw [hts, clsAt_cons] at hR2a ⊢
      cases x with
      | s0 =>
        simp only [next_seq, SeqTree.next_zero] at hR2a ⊢
        rw [recur_equiv_cls a _ _ _ m1 m2 rc2.2.2 q0.1 q0.2.1 q0.2.2
          (by rw [hq0]) hqa xs, hR2a]
        simp only [Option.map_some', ite_self]
      | s1 =>
        simp only [next_seq, SeqTree.next_one] at hR2a ⊢
        rw [recur_equiv_cls b _ _ _ m1 m2 q0.2.2 q1.1 q1.2.1 q1.2.2
          (by rw [hq1]) hqb xs, hR2a]
        simp only [Option.map_some', ite_self]
      | s2 =>
        simp only [next_seq, SeqTree.next_two] at hR2a ⊢
        rw [recur_equiv_cls d _ _ _ m1 m2 q1.2.2 q2.1 q2.2.1 q2.2.2
          (by rw [hq2]) hqc xs, hR2a]
        simp only [Option.map_some', ite_self]
    · rw [← h2]
      obtain ⟨x, xs, hts⟩ := toSyms_decomp (check_str_zero hs2)
      rw [hts, clsAt_cons] at hR2b ⊢
      cases x with
      | s0 =>
        simp only [next_seq, SeqTree.next_zero] at hR2b ⊢
        rw [recur_equiv_cls a _ _ _ m1 m2 rc2.2.2 q0.1 q0.2.1 q0.2.2
          (by rw [hq0]) hqa xs, hR2b]
        simp only [Option.map_some', ite_self]
      | s1 =>
        simp only [next_seq, SeqTree.next_one] at hR2b ⊢
        rw [recur_equiv_cls b _ _ _ m1 m2 q0.2.2 q1.1 q1.2.1 q1.2.2
          (by rw [hq1]) hqb xs, hR2b]
        simp only [Option.map_some', ite_self]
      | s2 =>
        simp only [next_seq, SeqTree.next_two] at hR2b ⊢
        rw [recur_equiv_cls d _ _ _ m1 m2 q1.2.2 q2.1 q2.2.1 q2.2.2
          (by rw [hq2]) hqc xs, hR2b]
        simp only [Option.map_some', ite_self]
  · rw [if_neg hqall] at h; simp at h

/-- Claim C6: (1) when the two endpoints of two present sequences
already carry the same class id other than -1, seq_equiv returns 0
(Unchanged) and changes nothing - tree, counter and oracle come back
untouched; (2) consequently, after a merge that returned 1 (Merged,
with a non-negative counter as every live store has), repeating the
same merge returns 0 with the state after the second call identical to
the state after the first. -/
theorem claim_C6 :
    (∀ (t : SeqTree) (ctr : Int) (s1 s2 : List Char) (pe : Bool)
        (al : List Bool),
      t ≠ SeqTree.null → check_str_for_inval s1 = 0 →
      check_str_for_inval s2 = 0 →
      walk t (toSyms s1) ≠ SeqTree.null →
      walk t (toSyms s2) ≠ SeqTree.null →
      (walk t (toSyms s1)).abstract_class ≠ -1 →
      (walk t (toSyms s1)).abstract_class =
        (walk t (toSyms s2)).abstract_class →
      seq_equiv t ctr s1 s2 pe al = some (0, t, ctr, al)) ∧
      (∀ (t : SeqTree) (ctr : Int) (s1 s2 : List Char) (al : List Bool)
          (t2 : SeqTree) (ctr2 : Int) (al2 : List Bool),
        0 ≤ ctr →
        seq_equiv t ctr s1 s2 false al = some (1, t2, ctr2, al2) →
        ∀ (pe2 : Bool) (al3 : List Bool),
          seq_equiv t2 ctr2 s1 s2 pe2 al3 = some (0, t2, ctr2, al3)) := by
  constructor
  · intro t ctr s1 s2 pe al ht h1 h2 hw1 hw2 hc1 hceq
    exact seq_equiv_unchanged_same t ctr s1 s2 pe al ht h1 h2 hw1 hw2 hc1 hceq
  · intro t ctr s1 s2 al t2 ctr2 al2 hctr h pe2 al3
    have hs1 : check_str_for_inval s1 = 0 := by
      by_contra hx
      have hx2 : check_str_for_inval s1 = -1 :=
        (check_str_cases s1).resolve_left hx
      unfold seq_equiv at h
      by_cases ht : t = SeqTree.null
      · rw [if_pos ht] at h; simp at h
      · rw [if_neg ht, if_pos hx2] at h; simp at h
    have hs2 : check_str_for_inval s2 = 0 := by
      by_contra hx
      have hx2 : check_str_for_inval s2 = -1 :=
        (check_str_cases s2).resolve_left hx
      unfold seq_equiv at h
      by_cases ht : t = SeqTree.null
      · rw [if_pos ht] at h; simp at h
      · rw [if_neg ht] at h
        by_cases hy : check_str_for_inval s1 = -1
        · rw [if_pos hy] at h; simp at h
        · rw [if_neg hy, if_pos hx2] at h; simp at h
    obtain ⟨hctr2, hcA, hcB⟩ :=
      seq_equiv_success_cls t ctr s1 s2 al t2 ctr2 al2 h
    have hnn1 : walk t2 (toSyms s1) ≠ SeqTree.null := by
      intro he
      unfold clsAt at hcA
      rw [he] at hcA
      cases hcA
    have hnn2 : walk t2 (toSyms s2) ≠ SeqTree.null := by
      intro he
      unfold clsAt at hcB
      rw [he] at hcB
      cases hcB
    have hac1 : (walk t2 (toSyms s1)).abstract_class = ctr + 1 := by
      obtain ⟨a, b, d, nmx, clsx, hm⟩ := ne_null_exists_mk hnn1
      unfold clsAt at hcA
      rw [hm] at hcA ⊢
      simp only [SeqTree.clsOpt, Option.some.injEq] at hcA
      simp only [SeqTree.abstract_class, hcA]
    have hac2 : (walk t2 (toSyms s2)).abstract_class = ctr + 1 := by
      obtain ⟨a, b, d, nmx, clsx, hm⟩ := ne_null_exists_mk hnn2
      unfold clsAt at hcB
      rw [hm] at hcB ⊢
      simp only [SeqTree.clsOpt, Option.some.injEq] at hcB
      simp only [SeqTree.abstract_class, hcB]
    have ht2nn : t2 ≠ SeqTree.null := by
      intro he
      rw [he, clsAt_null] at hcA
      cases hcA
    subst hctr2
    exact seq_equiv_unchanged_same t2 (ctr + 1) s1 s2 pe2 al3 ht2nn hs1 hs2
      hnn1 hnn2
      (by rw [hac1]; intro he; omega)
      (by rw [hac1, hac2])

/-- Witness for C6: merging "0" and "01" in the fixture store returns
Merged once, and the identical second merge returns Unchanged with the
state untouched. -/
theorem claim_C6_witness :
    (0 : Int) ≤ exC5.2 ∧
      seq_equiv exC5.1 exC5.2 ['0'] ['0', '1'] false [] =
        some (1, SeqTree.mk
          (SeqTree.mk SeqTree.null
            (SeqTree.mk SeqTree.null SeqTree.null SeqTree.null
              (some ['A']) 2)
            SeqTree.null (some ['A']) 2)
          SeqTree.null SeqTree.null none (-1), 2, []) ∧
      seq_equiv (SeqTree.mk
          (SeqTree.mk SeqTree.null
            (SeqTree.mk SeqTree.null SeqTree.null SeqTree.null
              (some ['A']) 2)
            SeqTree.null (some ['A']) 2)
          SeqTree.null SeqTree.null none (-1)) 2 ['0'] ['0', '1'] false [] =
        some (0, SeqTree.mk
          (SeqTree.mk SeqTree.null
            (SeqTree.mk SeqTree.null SeqTree.null SeqTree.null
              (some ['A']) 2)
            SeqTree.null (some ['A']) 2)
          SeqTree.null SeqTree.null none (-1), 2, []) :=
  ⟨by decide, by decide,
    claim_C6.2 exC5.1 exC5.2 ['0'] ['0', '1'] []
      (SeqTree.mk
        (SeqTree.mk SeqTree.null
          (SeqTree.mk SeqTree.null SeqTree.null SeqTree.null
            (some ['A']) 2)
          SeqTree.null (some ['A']) 2)
        SeqTree.null SeqTree.null none (-1)) 2 []
      (by decide) (by decide) false []⟩

theorem allNodes_mk (z o tw : SeqTree) (nm : Option AbsName) (cls : Int)
    (P : Option AbsName → Int → Bool) :
    allNodes (SeqTree.mk z o tw nm cls) P =
      (P nm cls && allNodes z P && allNodes o P && allNodes tw P) := rfl

theorem allNodes_next_seq {t : SeqTree} {P : Option AbsName → Int → Bool}
    (h : allNodes t P = true) (c : TSym) : allNodes (next_seq t c) P = true := by
  cases t with
  | null => cases c <;> exact h
  | mk z o tw nm cls =>
    rw [allNodes_mk] at h
    simp only [Bool.and_eq_true] at h
    cases c <;> simp only [next_seq, SeqTree.next_zero, SeqTree.next_one,
      SeqTree.next_two] <;> tauto

theorem allNodes_setChild {t : SeqTree} {P : Option AbsName → Int → Bool}
    (c : TSym) {x : SeqTree} (h : allNodes t P = true)
    (hx : allNodes x P = true) : allNodes (t.setChild c x) P = true := by
  cases t with
  | null => exact h
  | mk z o tw nm cls =>
    rw [allNodes_mk] at h
    simp only [Bool.and_eq_true] at h
    cases c <;> simp only [SeqTree.setChild, allNodes_mk,
      Bool.and_eq_true] <;> tauto

theorem allNodes_mono {P R : Option AbsName → Int → Bool}
    (h : ∀ nm c, P nm c = true → R nm c = true) :
    ∀ t : SeqTree, allNodes t P = true → allNodes t R = true := by
  intro t
  induction t with
  | null => intro _; rfl
  | mk z o tw nm cls ihz iho ihtw =>
    rw [allNodes_mk, allNodes_mk]
    simp only [Bool.and_eq_true]
    rintro ⟨⟨⟨h1, h2⟩, h3⟩, h4⟩
    exact ⟨⟨⟨h nm cls h1, ihz h2⟩, iho h3⟩, ihtw h4⟩

theorem seq_add_aux_allNodes {P : Option AbsName → Int → Bool}
    (hP : P none (-1) = true) :
    ∀ (l : List TSym) (t : SeqTree) (al : List Bool),
      allNodes t P = true → allNodes (seq_add_aux t l al).2.1 P = true := by
  intro l
  induction l with
  | nil => intro t al h; exact h
  | cons c cs ih =>
    intro t al h
    cases hn : next_seq t c with
    | null =>
      simp only [seq_add_aux, hn]
      by_cases ha : (allocStep al).1 = true
      · rw [if_pos ha]
        have hfresh : allNodes freshNode P = true := by
          simp [freshNode, allNodes_mk, allNodes, hP]
        have hrec := ih freshNode (allocStep al).2 hfresh
        by_cases hr : (seq_add_aux freshNode cs (allocStep al).2).1 = -1
        · rw [if_pos hr]
          exact allNodes_setChild c h rfl
        · rw [if_neg hr]
          exact allNodes_setChild c h hrec
      · rw [if_neg ha]
        exact h
    | mk z1 o1 t1 n1 c1 =>
      simp only [seq_add_aux, hn]
      have hch : allNodes (SeqTree.mk z1 o1 t1 n1 c1) P = true := by
        have := allNodes_next_seq h c
        rw [hn] at this
        exact this
      exact allNodes_setChild c h (ih (SeqTree.mk z1 o1 t1 n1 c1) al hch)

theorem seq_remove_aux_allNodes {P : Option AbsName → Int → Bool} :
    ∀ (cs : List TSym) (t : SeqTree) (c : TSym) (t2 : SeqTree),
      seq_remove_aux t c cs = some t2 → allNodes t P = true →
        allNodes t2 P = true := by
  intro cs
  induction cs with
  | nil =>
    intro t c t2 h hall
    cases hn : next_seq t c with
    | null => simp [seq_remove_aux, hn] at h
    | mk z1 o1 t1 n1 c1 =>
      simp only [seq_remove_aux, hn, Option.some.injEq] at h
      rw [← h]
      exact allNodes_setChild c hall rfl
  | cons c2 cs2 ih =>
    intro t c t2 h hall
    cases hn : next_seq t c with
    | null => simp [seq_remove_aux, hn] at h
    | mk z1 o1 t1 n1 c1 =>
      simp only [seq_remove_aux, hn, Option.map_eq_some'] at h
      obtain ⟨ch2, hch2, ht2⟩ := h
      have hch : allNodes (SeqTree.mk z1 o1 t1 n1 c1) P = true := by
        have := allNodes_next_seq hall c
        rw [hn] at this
        exact this
      rw [← ht2]
      exact allNodes_setChild c hall (ih _ c2 ch2 hch2 hch)

theorem recur_seq_name_allNodes (Q : Int → Bool) :
    ∀ (t : SeqTree) (n : AbsName) (cac : Int) (al : List Bool),
      allNodes t (fun _ c => Q c) = true →
      allNodes (recur_seq_name t n cac al).2.1 (fun _ c => Q c) = true := by
  intro t
  induction t with
  | null => intro n cac al h; exact h
  | mk z o tw nm cls ihz iho ihtw =>
    intro n cac al h
    rw [allNodes_mk] at h
    simp only [Bool.and_eq_true] at h
    obtain ⟨⟨⟨h1, h2⟩, h3⟩, h4⟩ := h
    simp only [recur_seq_name]
    have hz := ihz n cac al h2
    have ho := iho n cac (recur_seq_name z n cac al).2.2 h3
    have ht := ihtw n cac
      (recur_seq_name o n cac (recur_seq_name z n cac al).2.2).2.2 h4
    split
    · simp only [allNodes_mk, Bool.and_eq_true]
      exact ⟨⟨⟨h1, hz⟩, ho⟩, ht⟩
    · split
      · simp only [allNodes_mk, Bool.and_eq_true]
        exact ⟨⟨⟨h1, hz⟩, ho⟩, ht⟩
      · simp only [allNodes_mk, Bool.and_eq_true]
        exact ⟨⟨⟨h1, hz⟩, ho⟩, ht⟩

theorem allNodes_updateAt_setNameCls {P : Option AbsName → Int → Bool}
    (w : Option AbsName) (v : Int) (hPwv : P w v = true) :
    ∀ (q : List TSym) (t : SeqTree), allNodes t P = true →
      allNodes (updateAt t q fun x => (x.setName w).setCls v) P = true := by
  intro q
  induction q with
  | nil =>
    intro t h
    cases t with
    | null => exact h
    | mk z o tw nm cls =>
      rw [allNodes_mk] at h
      simp only [Bool.and_eq_true] at h
      simp only [updateAt, SeqTree.setName, SeqTree.setCls, allNodes_mk,
        Bool.and_eq_true]
      tauto
  | cons c cs ih =>
    intro t h
    cases hn : next_seq t c with
    | null =>
      simp only [updateAt, hn]
      exact h
    | mk z1 o1 t1 n1 c1 =>
      simp only [updateAt, hn]
      have hch : allNodes (SeqTree.mk z1 o1 t1 n1 c1) P = true := by
        have := allNodes_next_seq h c
        rw [hn] at this
        exact this
      exact allNodes_setChild c h (ih _ hch)

theorem allNodes_updateAt_setCls {P : Option AbsName → Int → Bool}
    (v : Int) (hPv : ∀ nm, P nm v = true) :
    ∀ (q : List TSym) (t : SeqTree), allNodes t P = true →
      allNodes (updateAt t q fun nd => nd.setCls v) P = true := by
  intro q
  induction q with
  | nil =>
    intro t h
    cases t with
    | null => exact h
    | mk z o tw nm cls =>
      rw [allNodes_mk] at h
      simp only [Bool.and_eq_true] at h
      simp only [updateAt, SeqTree.setCls, allNodes_mk, Bool.and_eq_true]
      exact ⟨⟨⟨hPv nm, h.1.1.2⟩, h.1.2⟩, h.2⟩
  | cons c cs ih =>
    intro t h
    cases hn : next_seq t c with
    | null =>
      simp only [updateAt, hn]
      exact h
    | mk z1 o1 t1 n1 c1 =>
      simp only [updateAt, hn]
      have hch : allNodes (SeqTree.mk z1 o1 t1 n1 c1) P = true := by
        have := allNodes_next_seq h c
        rw [hn] at this
        exact this
      exact allNodes_setChild c h (ih _ hch)

theorem allNodes_updateAt_setName (Q : Int → Bool) (w : Option AbsName) :
    ∀ (q : List TSym) (t : SeqTree), allNodes t (fun _ c => Q c) = true →
      allNodes (updateAt t q fun nd => nd.setName w) (fun _ c => Q c) =
        true := by
  intro q
  induction q with
  | nil =>
    intro t h
    cases t with
    | null => exact h
    | mk z o tw nm cls =>
      rw [allNodes_mk] at h
      simp only [Bool.and_eq_true] at h
      simp only [updateAt, SeqTree.setName, allNodes_mk, Bool.and_eq_true]
      tauto
  | cons c cs ih =>
    intro t h
    cases hn : next_seq t c with
    | null =>
      simp only [updateAt, hn]
      exact h
    | mk z1 o1 t1 n1 c1 =>
      simp only [updateAt, hn]
      have hch : allNodes (SeqTree.mk z1 o1 t1 n1 c1) (fun _ c => Q c) =
          true := by
        have := allNodes_next_seq h c
        rw [hn] at this
        exact this
      exact allNodes_setChild c h (ih _ hch)

theorem node_change_at_allNodes {P : Option AbsName → Int → Bool}
    {t : SeqTree} {p : List TSym} {n1 n2 : Option AbsName} {cl : Int}
    {al : List Bool} {rc : Int × SeqTree × List Bool}
    (h : node_change_at t p n1 n2 cl al = some rc)
    (hPcl : ∀ nm, P nm cl = true) (hall : allNodes t P = true) :
    allNodes rc.2.1 P = true := by
  unfold node_change_at at h
  split at h
  · simp only [Option.some.injEq] at h
    rw [← h]
    exact hall
  · cases hnc : node_change (walk t p).abstract_class_name n1 n2 cl al with
    | none => rw [hnc] at h; simp at h
    | some rn =>
      rw [hnc] at h
      simp only [Option.map_some', Option.some.injEq] at h
      rw [← h]
      simp only
      have := node_change_cls hnc
      rw [this]
      exact allNodes_updateAt_setNameCls rn.2.1 cl (hPcl rn.2.1) p t hall

theorem recur_equiv_allNodes (Q : Int → Bool) (an : Int) (hQ : Q an = true) :
    ∀ (t : SeqTree) (a1 a2 : Int) (m1 m2 : Option AbsName) (al : List Bool)
      (r : Int) (t2 : SeqTree) (al2 : List Bool),
      recur_equiv t a1 a2 an m1 m2 al = some (r, t2, al2) →
      allNodes t (fun _ c => Q c) = true →
      allNodes t2 (fun _ c => Q c) = true := by
  intro t
  induction t with
  | null =>
    intro a1 a2 m1 m2 al r t2 al2 h hall
    simp only [recur_equiv, Option.some.injEq, Prod.mk.injEq] at h
    rw [← h.2.1]
    rfl
  | mk z o tw nm cls ihz iho ihtw =>
    intro a1 a2 m1 m2 al r t2 al2 h hall
    rw [allNodes_mk] at hall
    simp only [Bool.and_eq_true] at hall
    obtain ⟨⟨⟨h1, h2⟩, h3⟩, h4⟩ := hall
    simp only [recur_equiv] at h
    cases hrz : recur_equiv z a1 a2 an m1 m2 al with
    | none =>
      rw [hrz] at h
      simp only [Option.bind_eq_bind, Option.none_bind] at h
      exact Option.noConfusion h
    | some vz =>
      rw [hrz] at h
      simp only [Option.bind_eq_bind, Option.some_bind] at h
      cases hro : recur_equiv o a1 a2 an m1 m2 vz.2.2 with
      | none =>
        rw [hro] at h
        simp only [Option.none_bind] at h
        exact Option.noConfusion h
      | some vo =>
        rw [hro] at h
        simp only [Option.some_bind] at h
        cases hrt : recur_equiv tw a1 a2 an m1 m2 vo.2.2 with
        | none =>
          rw [hrt] at h
          simp only [Option.none_bind] at h
          exact Option.noConfusion h
        | some vt =>
          rw [hrt] at h
          simp only [Option.some_bind] at h
          have hz := ihz a1 a2 m1 m2 al vz.1 vz.2.1 vz.2.2 (by rw [hrz]) h2
          have ho := iho a1 a2 m1 m2 vz.2.2 vo.1 vo.2.1 vo.2.2
            (by rw [hro]) h3
          have ht := ihtw a1 a2 m1 m2 vo.2.2 vt.1 vt.2.1 vt.2.2
            (by rw [hrt]) h4
          split at h
          · simp only [Option.some.injEq, Prod.mk.injEq] at h
            rw [← h.2.1]
            simp only [allNodes_mk, Bool.and_eq_true]
            exact ⟨⟨⟨h1, hz⟩, ho⟩, ht⟩
          · split at h
            · cases hnc : node_change nm m1 m2 an vt.2.2 with
              | none => rw [hnc] at h; simp at h
              | some rn =>
                rw [hnc] at h
                simp only [Option.map_some', Option.some.injEq,
                  Prod.mk.injEq] at h
                rw [← h.2.1]
                simp only [allNodes_mk, Bool.and_eq_true]
                have := node_change_cls hnc
                rw [this]
                exact ⟨⟨⟨hQ, hz⟩, ho⟩, ht⟩
            · simp only [Option.some.injEq, Prod.mk.injEq] at h
              rw [← h.2.1]
              simp only [allNodes_mk, Bool.and_eq_true]
              exact ⟨⟨⟨h1, hz⟩, ho⟩, ht⟩

theorem ClsBound_mono {t : SeqTree} {a b : Int} (hB : ClsBound t a = true)
    (hab : a ≤ b) : ClsBound t b = true := by
  unfold ClsBound at hB ⊢
  refine allNodes_mono (fun nm c hc => ?_) t hB
  simp only [Bool.or_eq_true, Bool.and_eq_true, decide_eq_true_eq] at hc ⊢
  omega

theorem ClsBound_not_has {ctr v : Int} (hctr : 0 ≤ ctr) (hv : ctr < v) :
    ∀ t : SeqTree, ClsBound t ctr = true → treeHasCls t v = false := by
  intro t
  induction t with
  | null => intro _; rfl
  | mk z o tw nm cls ihz iho ihtw =>
    unfold ClsBound
    rw [allNodes_mk]
    simp only [Bool.and_eq_true]
    rintro ⟨⟨⟨h1, h2⟩, h3⟩, h4⟩
    simp only [treeHasCls, Bool.or_eq_false_iff]
    refine ⟨⟨⟨?_, ihz h2⟩, iho h3⟩, ihtw h4⟩
    simp only [Bool.or_eq_true, Bool.and_eq_true, decide_eq_true_eq] at h1
    simp only [decide_eq_false_iff_not]
    omega

theorem seq_set_name_clsbound (t : SeqTree) (ctr : Int) (s : List Char)
    (n : AbsName) (al : List Bool) (r : Int) (t2 : SeqTree) (ctr2 : Int)
    (al2 : List Bool) (hB : ClsBound t ctr = true) (hctr : 0 ≤ ctr)
    (h : seq_set_name t ctr s n al = (r, t2, ctr2, al2)) :
    ctr ≤ ctr2 ∧ ClsBound t2 ctr2 = true ∧
      (ctr2 = ctr ∨
        (ctr2 = ctr + 1 ∧ treeHasCls t ctr2 = false ∧ ctr2 ≠ -1)) := by
  unfold seq_set_name at h
  by_cases ht : t = SeqTree.null
  · rw [if_pos ht] at h
    simp only [Prod.mk.injEq] at h
    obtain ⟨_, h2, h3, _⟩ := h
    exact ⟨by omega, by rw [← h2, ← h3]; exact hB, Or.inl h3.symm⟩
  rw [if_neg ht] at h
  by_cases hs : check_str_for_inval s = -1
  · rw [if_pos hs] at h
    simp only [Prod.mk.injEq] at h
    obtain ⟨_, h2, h3, _⟩ := h
    exact ⟨by omega, by rw [← h2, ← h3]; exact hB, Or.inl h3.symm⟩
  rw [if_neg hs] at h
  by_cases hn : n = []
  · rw [if_pos hn] at h
    simp only [Prod.mk.injEq] at h
    obtain ⟨_, h2, h3, _⟩ := h
    exact ⟨by omega, by rw [← h2, ← h3]; exact hB, Or.inl h3.symm⟩
  rw [if_neg hn] at h
  split at h
  · simp only [Prod.mk.injEq] at h
    obtain ⟨_, h2, h3, _⟩ := h
    exact ⟨by omega, by rw [← h2, ← h3]; exact hB, Or.inl h3.symm⟩
  by_cases hcls : (walk t (toSyms s)).abstract_class = -1
  · rw [if_pos hcls] at h
    by_cases ha : (allocStep al).1 = true
    · rw [if_pos ha] at h
      simp only [Prod.mk.injEq] at h
      obtain ⟨_, h2, h3, _⟩ := h
      refine ⟨by omega, ?_, Or.inr ⟨h3.symm, ?_, by omega⟩⟩
      · rw [← h2, ← h3]
        unfold ClsBound
        refine allNodes_updateAt_setNameCls (some n) (ctr + 1) ?_
          (toSyms s) t (ClsBound_mono hB (by omega))
        simp only [Bool.or_eq_true, Bool.and_eq_true, decide_eq_true_eq]
        omega
      · rw [← h3]
        exact ClsBound_not_has hctr (by omega) t hB
    · rw [if_neg ha] at h
      simp only [Prod.mk.injEq] at h
      obtain ⟨_, h2, h3, _⟩ := h
      refine ⟨by omega, ?_, Or.inl h3.symm⟩
      rw [← h2, ← h3]
      unfold ClsBound
      exact allNodes_updateAt_setName _ none (toSyms s) t hB
  · rw [if_neg hcls] at h
    split at h
    · rename_i cur hcur
      by_cases hnc : n = cur
      · rw [if_pos hnc] at h
        simp only [Prod.mk.injEq] at h
        obtain ⟨_, h2, h3, _⟩ := h
        exact ⟨by omega, by rw [← h2, ← h3]; exact hB, Or.inl h3.symm⟩
      · rw [if_neg hnc] at h
        simp only [Prod.mk.injEq] at h
        obtain ⟨_, h2, h3, _⟩ := h
        refine ⟨by omega, ?_, Or.inl h3.symm⟩
        rw [← h2, ← h3]
        unfold ClsBound
        exact recur_seq_name_allNodes _ t n _ al hB
    · simp only [Prod.mk.injEq] at h
      obtain ⟨_, h2, h3, _⟩ := h
      refine ⟨by omega, ?_, Or.inl h3.symm⟩
      rw [← h2, ← h3]
      unfold ClsBound
      exact recur_seq_name_allNodes _ t n _ al hB

theorem seq_equiv_clsbound (t : SeqTree) (ctr : Int) (s1 s2 : List Char)
    (pe : Bool) (al : List Bool) (r : Int) (t2 : SeqTree) (ctr2 : Int)
    (al2 : List Bool) (hB : ClsBound t ctr = true) (hctr : 0 ≤ ctr)
    (h : seq_equiv t ctr s1 s2 pe al = some (r, t2, ctr2, al2)) :
    ctr ≤ ctr2 ∧ ClsBound t2 ctr2 = true ∧
      (ctr2 = ctr ∨
        (ctr2 = ctr + 1 ∧ treeHasCls t ctr2 = false ∧ ctr2 ≠ -1)) := by
  have hPcl : ∀ nm : Option AbsName,
      (decide (ctr + 1 = -1) ||
        (decide (0 < ctr + 1) && decide (ctr + 1 ≤ ctr + 1))) = true := by
    intro nm
    simp only [Bool.or_eq_true, Bool.and_eq_true, decide_eq_true_eq]
    omega
  have hmint : treeHasCls t (ctr + 1) = false :=
    ClsBound_not_has hctr (by omega) t hB
  unfold seq_equiv at h
  by_cases ht : t = SeqTree.null
  · rw [if_pos ht] at h
    simp only [Option.some.injEq, Prod.mk.injEq] at h
    obtain ⟨_, h2, h3, _⟩ := h
    exact ⟨by omega, by rw [← h2, ← h3]; exact hB, Or.inl h3.symm⟩
  rw [if_neg ht] at h
  by_cases hs1 : check_str_for_inval s1 = -1
  · rw [if_pos hs1] at h
    simp only [Option.some.injEq, Prod.mk.injEq] at h
    obtain ⟨_, h2, h3, _⟩ := h
    exact ⟨by omega, by rw [← h2, ← h3]; exact hB, Or.inl h3.symm⟩
  rw [if_neg hs1] at h
  by_cases hs2 : check_str_for_inval s2 = -1
  · rw [if_pos hs2] at h
    simp only [Option.some.injEq, Prod.mk.injEq] at h
    obtain ⟨_, h2, h3, _⟩ := h
    exact ⟨by omega, by rw [← h2, ← h3]; exact hB, Or.inl h3.symm⟩
  rw [if_neg hs2] at h
  cases pe with
  | true =>
    simp only [if_true] at h
    simp only [Option.some.injEq, Prod.mk.injEq] at h
    obtain ⟨_, h2, h3, _⟩ := h
    exact ⟨by omega, by rw [← h2, ← h3]; exact hB, Or.inl h3.symm⟩
  | false =>
  simp only [Bool.false_eq_true, if_false] at h
  split at h
  · simp only [Option.some.injEq, Prod.mk.injEq] at h
    obtain ⟨_, h2, h3, _⟩ := h
    exact ⟨by omega, by rw [← h2, ← h3]; exact hB, Or.inl h3.symm⟩
  rename_i e1x hne1
  split at h
  · simp only [Option.some.injEq, Prod.mk.injEq] at h
    obtain ⟨_, h2, h3, _⟩ := h
    exact ⟨by omega, by rw [← h2, ← h3]; exact hB, Or.inl h3.symm⟩
  rename_i e2x hne2
  by_cases hsame : (walk t (toSyms s1)).abstract_class ≠ -1 ∧
      (walk t (toSyms s1)).abstract_class = (walk t (toSyms s2)).abstract_class
  · rw [if_pos hsame] at h
    simp only [Option.some.injEq, Prod.mk.injEq] at h
    obtain ⟨_, h2, h3, _⟩ := h
    exact ⟨by omega, by rw [← h2, ← h3]; exact hB, Or.inl h3.symm⟩
  rw [if_neg hsame] at h
  have hB1 : ClsBound (updateAt t (toSyms s1) fun nd =>
      nd.setCls (ctr + 1)) (ctr + 1) := by
    unfold ClsBound
    exact allNodes_updateAt_setCls (ctr + 1) (fun nm => hPcl nm) (toSyms s1)
      t (ClsBound_mono hB (by omega))
  have hB2 : ClsBound (updateAt (updateAt t (toSyms s1) fun nd =>
      nd.setCls (ctr + 1)) (toSyms s2) fun nd => nd.setCls (ctr + 1))
        (ctr + 1) := by
    unfold ClsBound
    exact allNodes_updateAt_setCls (ctr + 1) (fun nm => hPcl nm) (toSyms s2)
      _ hB1
  split at h
  · simp only [Option.some.injEq, Prod.mk.injEq] at h
    obtain ⟨_, h2, h3, _⟩ := h
    refine ⟨by omega, ?_, Or.inr ⟨h3.symm, by rw [← h3]; exact hmint,
      by omega⟩⟩
    rw [← h2, ← h3]
    exact hB2
  rename_i m1 hsn1
  split at h
  · simp only [Option.some.injEq, Prod.mk.injEq] at h
    obtain ⟨_, h2, h3, _⟩ := h
    refine ⟨by omega, ?_, Or.inr ⟨h3.symm, by rw [← h3]; exact hmint,
      by omega⟩⟩
    rw [← h2, ← h3]
    exact hB2
  rename_i m2 hsn2
  rw [Option.bind_eq_bind, Option.bind_eq_some] at h
  obtain ⟨rc1, hrc1, h⟩ := h
  have hBrc1 : ClsBound rc1.2.1 (ctr + 1) :=
    node_change_at_allNodes hrc1 (fun nm => hPcl nm) hB2
  by_cases hr1 : rc1.1 = -1
  · rw [if_pos hr1] at h
    simp only [Option.some.injEq, Prod.mk.injEq] at h
    obtain ⟨_, h2, h3, _⟩ := h
    exact ⟨by omega, by rw [← h2, ← h3]; exact hBrc1,
      Or.inr ⟨h3.symm, by rw [← h3]; exact hmint, by omega⟩⟩
  rw [if_neg hr1] at h
  rw [Option.bind_eq_some] at h
  obtain ⟨rc2, hrc2, h⟩ := h
  have hBrc2 : ClsBound rc2.2.1 (ctr + 1) :=
    node_change_at_allNodes hrc2 (fun nm => hPcl nm) hBrc1
  by_cases hr2 : rc2.1 = -1
  · rw [if_pos hr2] at h
    simp only [Option.some.injEq, Prod.mk.injEq] at h
    obtain ⟨_, h2, h3, _⟩ := h
    exact ⟨by omega, by rw [← h2, ← h3]; exact hBrc2,
      Or.inr ⟨h3.symm, by rw [← h3]; exact hmint, by omega⟩⟩
  rw [if_neg hr2] at h
  rw [Option.bind_eq_some] at h
  obtain ⟨q0, hq0, h⟩ := h
  rw [Option.bind_eq_some] at h
  obtain ⟨q1, hq1, h⟩ := h
  rw [Option.bind_eq_some] at h
  obtain ⟨q2, hq2, h⟩ := h
  have hQan : (decide ((ctr + 1 : Int) = -1) ||
      (decide ((0 : Int) < ctr + 1) && decide ((ctr + 1 : Int) ≤ ctr + 1))) =
        true := hPcl none
  have hq0b : allNodes q0.2.1
      (fun _ c => decide (c = -1) ||
        (decide (0 < c) && decide (c ≤ ctr + 1))) = true :=
    recur_equiv_allNodes _ (ctr + 1) hQan rc2.2.1.next_zero _ _ m1 m2
      rc2.2.2 q0.1 q0.2.1 q0.2.2 (by rw [hq0])
      (allNodes_next_seq hBrc2 TSym.s0)
  have hq1b : allNodes q1.2.1
      (fun _ c => decide (c = -1) ||
        (decide (0 < c) && decide (c ≤ ctr + 1))) = true :=
    recur_equiv_allNodes _ (ctr + 1) hQan rc2.2.1.next_one _ _ m1 m2
      q0.2.2 q1.1 q1.2.1 q1.2.2 (by rw [hq1])
      (allNodes_next_seq hBrc2 TSym.s1)
  have hq2b : allNodes q2.2.1
      (fun _ c => decide (c = -1) ||
        (decide (0 < c) && decide (c ≤ ctr + 1))) = true :=
    recur_equiv_allNodes _ (ctr + 1) hQan rc2.2.1.next_two _ _ m1 m2
      q1.2.2 q2.1 q2.2.1 q2.2.2 (by rw [hq2])
      (allNodes_next_seq hBrc2 TSym.s2)
  have hBfin : ClsBound (((rc2.2.1.setChild TSym.s0 q0.2.1).setChild
      TSym.s1 q1.2.1).setChild TSym.s2 q2.2.1) (ctr + 1) := by
    unfold ClsBound
    exact allNodes_setChild TSym.s2
      (allNodes_setChild TSym.s1
        (allNodes_setChild TSym.s0 hBrc2 hq0b) hq1b) hq2b
  by_cases hqall : q0.1 ≠ -1 ∧ q1.1 ≠ -1 ∧ q2.1 ≠ -1
  · rw [if_pos hqall] at h
    simp only [Option.some.injEq, Prod.mk.injEq] at h
    obtain ⟨_, h2, h3, _⟩ := h
    exact ⟨by omega, by rw [← h2, ← h3]; exact hBfin,
      Or.inr ⟨h3.symm, by rw [← h3]; exact hmint, by omega⟩⟩
  · rw [if_neg hqall] at h
    simp only [Option.some.injEq, Prod.mk.injEq] at h
    obtain ⟨_, h2, h3, _⟩ := h
    exact ⟨by omega, by rw [← h2, ← h3]; exact hBfin,
      Or.inr ⟨h3.symm, by rw [← h3]; exact hmint, by omega⟩⟩

/-- Claim C8: class ids are never reused within a store's lifetime.  The
counter of a fresh store is 0 and the fresh store satisfies the bound
invariant (every class id is -1 or in (0, counter]); every public
operation preserves that invariant and never decreases the counter;
seq_add and seq_remove do not touch the counter at all; and whenever
seq_set_name or seq_equiv mints a class (the only two mint sites), the
counter advances by exactly 1 and the minted id - the new counter
value - is carried by no pre-call node and differs from the -1
sentinel. -/
theorem claim_C8 :
    (seq_new.2 = 0 ∧ ClsBound seq_new.1 0 = true) ∧
      (∀ (t : SeqTree) (ctr : Int) (s : List Char) (al : List Bool),
        ClsBound t ctr = true → ClsBound (seq_add t s al).2.1 ctr = true) ∧
      (∀ (t : SeqTree) (ctr : Int) (s : List Char),
        ClsBound t ctr = true → ClsBound (seq_remove t s).2 ctr = true) ∧
      (∀ (t : SeqTree) (ctr : Int) (s : List Char) (n : AbsName)
          (al : List Bool) (r : Int) (t2 : SeqTree) (ctr2 : Int)
          (al2 : List Bool),
        ClsBound t ctr = true → 0 ≤ ctr →
        seq_set_name t ctr s n al = (r, t2, ctr2, al2) →
        ctr ≤ ctr2 ∧ ClsBound t2 ctr2 = true ∧
          (ctr2 = ctr ∨
            (ctr2 = ctr + 1 ∧ treeHasCls t ctr2 = false ∧ ctr2 ≠ -1))) ∧
      (∀ (t : SeqTree) (ctr : Int) (s1 s2 : List Char) (pe : Bool)
          (al : List Bool) (r : Int) (t2 : SeqTree) (ctr2 : Int)
          (al2 : List Bool),
        ClsBound t ctr = true → 0 ≤ ctr →
        seq_equiv t ctr s1 s2 pe al = some (r, t2, ctr2, al2) →
        ctr ≤ ctr2 ∧ ClsBound t2 ctr2 = true ∧
          (ctr2 = ctr ∨
            (ctr2 = ctr + 1 ∧ treeHasCls t ctr2 = false ∧ ctr2 ≠ -1))) := by
  refine ⟨⟨rfl, by decide⟩, ?_, ?_, ?_, ?_⟩
  · intro t ctr s al hB
    unfold seq_add
    by_cases ht : t = SeqTree.null
    · rw [if_pos ht]
      exact hB
    rw [if_neg ht]
    by_cases hs : check_str_for_inval s = -1
    · rw [if_pos hs]
      exact hB
    rw [if_neg hs]
    unfold ClsBound at hB ⊢
    refine seq_add_aux_allNodes ?_ (toSyms s) t al hB
    simp
  · intro t ctr s hB
    unfold seq_remove
    by_cases ht : t = SeqTree.null
    · rw [if_pos ht]
      exact hB
    rw [if_neg ht]
    by_cases hs : check_str_for_inval s = -1
    · rw [if_pos hs]
      exact hB
    rw [if_neg hs]
    cases hts : toSyms s with
    | nil => exact hB
    | cons c cs =>
      cases hr : seq_remove_aux t c cs with
      | none =>
        simp only [hr]
        exact hB
      | some t2 =>
        simp only [hr]
        unfold ClsBound at hB ⊢
        exact seq_remove_aux_allNodes cs t c t2 hr hB
  · intro t ctr s n al r t2 ctr2 al2 hB hctr h
    exact seq_set_name_clsbound t ctr s n al r t2 ctr2 al2 hB hctr h
  · intro t ctr s1 s2 pe al r t2 ctr2 al2 hB hctr h
    exact seq_equiv_clsbound t ctr s1 s2 pe al r t2 ctr2 al2 hB hctr h

/-- Witness for C8 on the first-naming mint of the fixture store. -/
theorem claim_C8_witness :
    ClsBound exT1 0 = true ∧ (0 : Int) ≤ 0 ∧
      seq_set_name exT1 0 ['1'] ['N'] [] =
        (1, SeqTree.mk SeqTree.null
          (SeqTree.mk SeqTree.null SeqTree.null SeqTree.null (some ['N']) 1)
          SeqTree.null none (-1), 1, []) ∧
      ((0 : Int) ≤ 1 ∧
        ClsBound (SeqTree.mk SeqTree.null
          (SeqTree.mk SeqTree.null SeqTree.null SeqTree.null (some ['N']) 1)
          SeqTree.null none (-1)) 1 = true ∧
        ((1 : Int) = 0 ∨
          ((1 : Int) = 0 + 1 ∧ treeHasCls exT1 1 = false ∧
            (1 : Int) ≠ -1))) :=
  ⟨by decide, by decide, by decide,
    claim_C8.2.2.2.1 exT1 0 ['1'] ['N'] [] 1
      (SeqTree.mk SeqTree.null
        (SeqTree.mk SeqTree.null SeqTree.null SeqTree.null (some ['N']) 1)
        SeqTree.null none (-1)) 1 []
      (by decide) (by decide) (by decide)⟩
